import Mathlib

/-!
Verification of the music-monitor repository (countdown_monitor.py and
unified_monitor.py) against its specification.

Strings are modelled as lists of unicode scalar values (`Str`), matching
Python `str`.  The Python standard library's `json.dumps` / `json.loads`
(used by the monitors for state hashing and state persistence) are modelled
by an executable printer `jdump` (covering both the compact
`sort_keys=True` form used for the countdown hash and the `indent=2` form
used by `save_state`) and an executable parser `parseP`, over a JSON value
type `JVal` (numbers restricted to integers, which is all the monitors
ever store).  A round-trip theorem connects them.
-/

set_option maxHeartbeats 1000000

/-- Python strings, modelled as lists of unicode scalar values. -/
abbrev Str := List Char

/-- Shorthand turning a Lean string literal into a `Str`. -/
def S (s : String) : Str := s.toList

/-! ## Decimal digits, and Python `str(int)` -/

/-- The decimal digit character for `n < 10` (`'0'` as a junk value above). -/
def digChar : Nat → Char
  | 0 => '0' | 1 => '1' | 2 => '2' | 3 => '3' | 4 => '4'
  | 5 => '5' | 6 => '6' | 7 => '7' | 8 => '8' | 9 => '9'
  | _ => '0'

/-- Numeric value of a decimal digit character. -/
def digVal (c : Char) : Nat := c.toNat - 48

/-- Fuel-driven digit expansion used by `natChars`. -/
def natCharsAux : Nat → Nat → Str
  | 0, _ => []
  | fuel + 1, n =>
    if n < 10 then [digChar n]
    else natCharsAux fuel (n / 10) ++ [digChar (n % 10)]

/-- Decimal digits of `n`, most significant first: Python `str(n)` for `n ≥ 0`. -/
def natChars (n : Nat) : Str := natCharsAux (n + 1) n

theorem natCharsAux_irrel : ∀ n f1 f2, n < f1 → n < f2 →
    natCharsAux f1 n = natCharsAux f2 n := by
  intro n
  induction n using Nat.strong_induction_on with
  | _ n ih =>
    intro f1 f2 h1 h2
    match f1, f2 with
    | g1 + 1, g2 + 1 =>
      simp only [natCharsAux]
      by_cases h : n < 10
      · simp [h]
      · have hlt : n / 10 < n := Nat.div_lt_self (by omega) (by omega)
        rw [if_neg h, if_neg h,
          ih (n / 10) hlt g1 g2 (by omega) (by omega)]

theorem natChars_eq (n : Nat) : natChars n =
    if n < 10 then [digChar n] else natChars (n / 10) ++ [digChar (n % 10)] := by
  by_cases h : n < 10
  · simp [natChars, natCharsAux, h]
  · have hlt : n / 10 < n := Nat.div_lt_self (by omega) (by omega)
    rw [if_neg h]
    show natCharsAux (n + 1) n = natChars (n / 10) ++ [digChar (n % 10)]
    simp only [natCharsAux, if_neg h]
    congr 1
    show natCharsAux n (n / 10) = natCharsAux (n / 10 + 1) (n / 10)
    exact natCharsAux_irrel (n / 10) n (n / 10 + 1) (by omega) (by omega)

/-- Python `str(n)` for an integer `n`. -/
def intChars (n : Int) : Str :=
  if n < 0 then '-' :: natChars n.natAbs else natChars n.toNat

theorem digChar_isDigit {d : Nat} (h : d < 10) : (digChar d).isDigit = true := by
  interval_cases d <;> decide

theorem digVal_digChar {d : Nat} (h : d < 10) : digVal (digChar d) = d := by
  interval_cases d <;> decide

theorem isDigit_toNat {c : Char} (h : c.isDigit = true) :
    48 ≤ c.toNat ∧ c.toNat ≤ 57 := by
  simp only [Char.isDigit, Bool.and_eq_true, decide_eq_true_eq] at h
  obtain ⟨h1, h2⟩ := h
  constructor
  · exact h1
  · exact h2

theorem natChars_head : ∀ n : Nat, ∃ c t, natChars n = c :: t ∧ c.isDigit = true := by
  intro n
  induction n using Nat.strong_induction_on with
  | _ n ih =>
    rw [natChars_eq]
    by_cases h : n < 10
    · exact ⟨digChar n, [], by simp [h], digChar_isDigit h⟩
    · obtain ⟨c, t, hct, hd⟩ := ih (n / 10) (Nat.div_lt_self (by omega) (by omega))
      exact ⟨c, t ++ [digChar (n % 10)], by simp [h, hct], hd⟩

/-- Accumulating reader of a run of leading decimal digits. -/
def readDigitsAux : Str → Nat → Nat × Str
  | [], acc => (acc, [])
  | c :: r, acc => if c.isDigit then readDigitsAux r (acc * 10 + digVal c) else (acc, c :: r)

/-- There is no decimal digit at the head of the string. -/
def noDigit : Str → Prop
  | [] => True
  | c :: _ => c.isDigit = false

instance : ∀ r, Decidable (noDigit r)
  | [] => by simp [noDigit]; infer_instance
  | _ :: _ => by simp [noDigit]; infer_instance

theorem readDigitsAux_stop {r : Str} (h : noDigit r) (acc : Nat) :
    readDigitsAux r acc = (acc, r) := by
  cases r with
  | nil => rfl
  | cons c t => simp [noDigit] at h; simp [readDigitsAux, h]

theorem readDigitsAux_natChars : ∀ (n : Nat) (r : Str) (acc : Nat),
    readDigitsAux (natChars n ++ r) acc =
      readDigitsAux r (acc * 10 ^ (natChars n).length + n) := by
  intro n
  induction n using Nat.strong_induction_on with
  | _ n ih =>
    intro r acc
    rw [natChars_eq]
    by_cases h : n < 10
    · rw [if_pos h]
      simp [readDigitsAux, digChar_isDigit h, digVal_digChar h]
    · rw [if_neg h]
      simp only [List.append_assoc, List.cons_append, List.nil_append]
      rw [ih (n / 10) (Nat.div_lt_self (by omega) (by omega))]
      have h10 : n % 10 < 10 := Nat.mod_lt _ (by omega)
      simp only [readDigitsAux, digChar_isDigit h10, if_true, digVal_digChar h10]
      congr 1
      simp only [List.length_append, List.length_cons, List.length_nil]
      rw [pow_succ]
      have hdm : n / 10 * 10 + n % 10 = n := by omega
      calc (acc * 10 ^ (natChars (n / 10)).length + n / 10) * 10 + n % 10
          = acc * (10 ^ (natChars (n / 10)).length * 10) + (n / 10 * 10 + n % 10) := by ring
        _ = acc * (10 ^ (natChars (n / 10)).length * 10) + n := by rw [hdm]

/-- Reader of a number's digits: `none` unless the head is a digit. -/
def readNum (s : Str) : Option (Nat × Str) :=
  match s with
  | [] => none
  | c :: _ => if c.isDigit then some (readDigitsAux s 0) else none

theorem readNum_natChars {r : Str} (n : Nat) (h : noDigit r) :
    readNum (natChars n ++ r) = some (n, r) := by
  obtain ⟨c, t, hct, hd⟩ := natChars_head n
  rw [readNum.eq_def]
  simp only [hct, List.cons_append]
  rw [if_pos hd]
  rw [← List.cons_append, ← hct, readDigitsAux_natChars, readDigitsAux_stop h]
  simp

/-! ## Characters, whitespace, hex -/

theorem char_toNat_inj {a b : Char} (h : a.toNat = b.toNat) : a = b := by
  apply Char.ext
  exact UInt32.toNat.inj h

theorem char_valid (c : Char) : c.toNat < 55296 ∨ (57343 < c.toNat ∧ c.toNat < 1114112) :=
  c.valid

theorem ofNatAux_self (c : Char) (h : c.toNat.isValidChar) : Char.ofNatAux c.toNat h = c := by
  apply Char.ext
  rfl

/-- JSON whitespace characters. -/
def wsChar (c : Char) : Bool := c = ' ' || c = '\t' || c = '\n' || c = '\r'

/-- Drop leading JSON whitespace. -/
def skipWs : Str → Str
  | [] => []
  | c :: t => if wsChar c then skipWs t else c :: t

/-- The string consists of JSON whitespace only. -/
def allWs : Str → Bool
  | [] => true
  | c :: t => wsChar c && allWs t

theorem skipWs_append {w : Str} (h : allWs w = true) (s : Str) :
    skipWs (w ++ s) = skipWs s := by
  induction w with
  | nil => rfl
  | cons c t ih =>
    simp only [allWs, Bool.and_eq_true] at h
    simp [skipWs, h.1, ih h.2]

theorem skipWs_cons {c : Char} (t : Str) (h : wsChar c = false) :
    skipWs (c :: t) = c :: t := by
  simp [skipWs, h]

theorem noDigit_append_ws {w r : Str} (hw : allWs w = true) (hr : noDigit r) :
    noDigit (w ++ r) := by
  cases w with
  | nil => simpa using hr
  | cons c t =>
    simp only [allWs, Bool.and_eq_true] at hw
    have : c.isDigit = false := by
      rcases hw with ⟨hc, _⟩
      simp only [wsChar, Bool.or_eq_true, decide_eq_true_eq] at hc
      rcases hc with ((h | h) | h) | h <;> subst h <;> decide
    simpa [noDigit] using this

/-- Lower-case hex digit character for `n < 16`. -/
def hexDig : Nat → Char
  | 0 => '0' | 1 => '1' | 2 => '2' | 3 => '3' | 4 => '4'
  | 5 => '5' | 6 => '6' | 7 => '7' | 8 => '8' | 9 => '9'
  | 10 => 'a' | 11 => 'b' | 12 => 'c' | 13 => 'd' | 14 => 'e' | 15 => 'f'
  | _ => '0'

/-- Hex value of a character, accepting both cases (as `json.loads` does). -/
def hexVal (c : Char) : Option Nat :=
  if c.isDigit then some (c.toNat - 48)
  else if 97 ≤ c.toNat ∧ c.toNat ≤ 102 then some (c.toNat - 87)
  else if 65 ≤ c.toNat ∧ c.toNat ≤ 70 then some (c.toNat - 55)
  else none

theorem hexVal_hexDig {d : Nat} (h : d < 16) : hexVal (hexDig d) = some d := by
  interval_cases d <;> decide

/-- The four hex digits of `n < 0x10000`, as printed by `json.dumps` (`\uXXXX`). -/
def hex4 (n : Nat) : Str :=
  [hexDig (n / 4096 % 16), hexDig (n / 256 % 16), hexDig (n / 16 % 16), hexDig (n % 16)]

/-- Read four hex digits back into a number. -/
def readHex4 (a b c d : Char) : Option Nat :=
  (hexVal a).bind fun va =>
  (hexVal b).bind fun vb =>
  (hexVal c).bind fun vc =>
  (hexVal d).map fun vd => va * 4096 + vb * 256 + vc * 16 + vd

theorem hexVal_hexDig_mod (m : Nat) : hexVal (hexDig (m % 16)) = some (m % 16) :=
  hexVal_hexDig (Nat.mod_lt _ (by omega))

theorem readHex4_hex4 {n : Nat} (h : n < 65536) :
    readHex4 (hexDig (n / 4096 % 16)) (hexDig (n / 256 % 16))
      (hexDig (n / 16 % 16)) (hexDig (n % 16)) = some n := by
  simp only [readHex4, hexVal_hexDig_mod, Option.some_bind, Option.map_some']
  congr 1
  omega

/-! ## Python json string escaping (`ensure_ascii=True`, the default) -/

/-- Encoding of one character inside a JSON string literal, exactly as
`json.dumps` does with its default `ensure_ascii=True`: printable ASCII
passes through, `"` `\` and control characters get two-character escapes,
any other character becomes `\uXXXX` (a surrogate pair beyond the BMP). -/
def escChar (c : Char) : Str :=
  if c = '"' then ['\\', '"']
  else if c = '\\' then ['\\', '\\']
  else if 32 ≤ c.toNat ∧ c.toNat ≤ 126 then [c]
  else if c.toNat = 8 then ['\\', 'b']
  else if c.toNat = 9 then ['\\', 't']
  else if c.toNat = 10 then ['\\', 'n']
  else if c.toNat = 12 then ['\\', 'f']
  else if c.toNat = 13 then ['\\', 'r']
  else if c.toNat < 65536 then '\\' :: 'u' :: hex4 c.toNat
  else ('\\' :: 'u' :: hex4 (55296 + (c.toNat - 65536) / 1024)) ++
       ('\\' :: 'u' :: hex4 (56320 + (c.toNat - 65536) % 1024))

/-- JSON escaping of a whole string (the part between the quotes). -/
def jescape : Str → Str
  | [] => []
  | c :: t => escChar c ++ jescape t

/-! ## Parsing a JSON string literal body (after the opening quote) -/

/-- Decode one escape sequence (the part after the backslash), returning the
decoded character and the remaining input.  Mirrors `json.loads`: the short
escapes, `\uXXXX`, and surrogate pairs; a lone surrogate (which CPython
would keep as a lone surrogate code unit) has no `Char` counterpart and is
rejected. -/
def decodeEsc : Str → Option (Char × Str)
  | [] => none
  | e :: r =>
    if e = '"' ∨ e = '\\' ∨ e = '/' then some (e, r)
    else if e = 'b' then some (Char.ofNatAux 8 (Or.inl (by omega)), r)
    else if e = 't' then some ('\t', r)
    else if e = 'n' then some ('\n', r)
    else if e = 'f' then some (Char.ofNatAux 12 (Or.inl (by omega)), r)
    else if e = 'r' then some ('\r', r)
    else if e = 'u' then
      match r with
      | a :: b :: c :: d :: r2 =>
        match readHex4 a b c d with
        | some hv =>
          if h1 : hv < 55296 then some (Char.ofNatAux hv (Or.inl h1), r2)
          else if h2 : hv ≤ 56319 then
            match r2 with
            | '\\' :: 'u' :: a2 :: b2 :: c2 :: d2 :: r3 =>
              match readHex4 a2 b2 c2 d2 with
              | some lv =>
                if h3 : 56320 ≤ lv ∧ lv ≤ 57343 then
                  some (Char.ofNatAux (65536 + (hv - 55296) * 1024 + (lv - 56320))
                    (Or.inr ⟨by omega, by omega⟩), r3)
                else none
              | none => none
            | _ => none
          else if h4 : hv ≤ 57343 then none
          else if h5 : hv < 65536 then
            some (Char.ofNatAux hv (Or.inr ⟨by omega, h5.trans (by omega)⟩), r2)
          else none
        | none => none
      | _ => none
    else none

/-- Parse the body of a JSON string literal up to and including the closing
quote, returning the decoded string and the rest of the input.  Mirrors
`json.loads` in strict mode: raw control characters are rejected.  The
fuel argument only needs to exceed the number of decoded characters; all
callers pass the input length. -/
def parseStrBody : Nat → Str → Option (Str × Str)
  | 0, _ => none
  | fuel + 1, s =>
    match s with
    | [] => none
    | c :: r =>
      if c = '"' then some ([], r)
      else if c = '\\' then
        match decodeEsc r with
        | some (ch, r2) =>
          match parseStrBody fuel r2 with
          | some (s', r3) => some (ch :: s', r3)
          | none => none
        | none => none
      else if c.toNat < 32 then none
      else
        match parseStrBody fuel r with
        | some (s', r2) => some (c :: s', r2)
        | none => none

theorem parseStrBody_quote (fuel : Nat) (r : Str) :
    parseStrBody (fuel + 1) ('"' :: r) = some ([], r) := by
  simp [parseStrBody]

theorem parseStrBody_esc {fuel : Nat} {r r2 s' r3 : Str} {ch : Char}
    (hd : decodeEsc r = some (ch, r2)) (hp : parseStrBody fuel r2 = some (s', r3)) :
    parseStrBody (fuel + 1) ('\\' :: r) = some (ch :: s', r3) := by
  simp [parseStrBody, hd, hp]

theorem parseStrBody_raw {fuel : Nat} {c : Char} {r s' r2 : Str} (h1 : ¬ c = '"')
    (h2 : ¬ c = '\\') (h3 : ¬ c.toNat < 32) (hp : parseStrBody fuel r = some (s', r2)) :
    parseStrBody (fuel + 1) (c :: r) = some (c :: s', r2) := by
  simp [parseStrBody, h1, h2, h3, hp]

theorem decodeEsc_self {e : Char} {r : Str} (he : e = '"' ∨ e = '\\' ∨ e = '/') :
    decodeEsc (e :: r) = some (e, r) := by
  simp [decodeEsc, he]

theorem decodeEsc_b {r : Str} (pf : Nat.isValidChar 8) :
    decodeEsc ('b' :: r) = some (Char.ofNatAux 8 pf, r) := by
  simp [decodeEsc]

theorem decodeEsc_t (r : Str) : decodeEsc ('t' :: r) = some ('\t', r) := by
  simp [decodeEsc]

theorem decodeEsc_n (r : Str) : decodeEsc ('n' :: r) = some ('\n', r) := by
  simp [decodeEsc]

theorem decodeEsc_f {r : Str} (pf : Nat.isValidChar 12) :
    decodeEsc ('f' :: r) = some (Char.ofNatAux 12 pf, r) := by
  simp [decodeEsc]

theorem decodeEsc_r (r : Str) : decodeEsc ('r' :: r) = some ('\r', r) := by
  simp [decodeEsc]

theorem decodeEsc_u_bmp {a b c2 d : Char} {hv : Nat} {r : Str}
    (hx : readHex4 a b c2 d = some hv) (h1 : hv < 55296) (pf : Nat.isValidChar hv) :
    decodeEsc ('u' :: a :: b :: c2 :: d :: r) = some (Char.ofNatAux hv pf, r) := by
  simp [decodeEsc, hx, h1]

theorem decodeEsc_u_upper {a b c2 d : Char} {hv : Nat} {r : Str}
    (hx : readHex4 a b c2 d = some hv) (hge : 57343 < hv) (h5 : hv < 65536)
    (pf : Nat.isValidChar hv) :
    decodeEsc ('u' :: a :: b :: c2 :: d :: r) = some (Char.ofNatAux hv pf, r) := by
  have e1 : ¬ hv < 55296 := by omega
  have e2 : ¬ hv ≤ 56319 := by omega
  have e3 : ¬ hv ≤ 57343 := by omega
  simp [decodeEsc, hx, e1, e2, e3, h5]

theorem decodeEsc_u_sur {a b c2 d a2 b2 c3 d2 : Char} {hv lv : Nat} {r : Str}
    (hx1 : readHex4 a b c2 d = some hv) (h1 : ¬ hv < 55296) (h2 : hv ≤ 56319)
    (hx2 : readHex4 a2 b2 c3 d2 = some lv) (h3 : 56320 ≤ lv ∧ lv ≤ 57343)
    (pf : Nat.isValidChar (65536 + (hv - 55296) * 1024 + (lv - 56320))) :
    decodeEsc ('u' :: a :: b :: c2 :: d :: '\\' :: 'u' :: a2 :: b2 :: c3 :: d2 :: r) =
      some (Char.ofNatAux (65536 + (hv - 55296) * 1024 + (lv - 56320)) pf, r) := by
  simp [decodeEsc, hx1, h1, h2, hx2, h3]

theorem parseStr_rt (s : Str) : ∀ (r : Str) (fuel : Nat), s.length < fuel →
    parseStrBody fuel (jescape s ++ '"' :: r) = some (s, r) := by
  induction s with
  | nil =>
    intro r fuel hf
    obtain ⟨f, rfl⟩ : ∃ f, fuel = f + 1 := ⟨fuel - 1, by omega⟩
    simpa [jescape] using parseStrBody_quote f r
  | cons c t ih =>
    intro r fuel hf
    obtain ⟨f, rfl⟩ : ∃ f, fuel = f + 1 := ⟨fuel - 1, by omega⟩
    have hfl : t.length < f := by simp at hf; omega
    have iht := ih r f hfl
    rw [jescape, List.append_assoc]
    by_cases h1 : c = '"'
    · subst h1
      rw [escChar, if_pos rfl]
      simp only [List.cons_append, List.nil_append]
      rw [parseStrBody_esc (decodeEsc_self (Or.inl rfl)) iht]
    · by_cases h2 : c = '\\'
      · subst h2
        rw [escChar, if_neg (by decide), if_pos rfl]
        simp only [List.cons_append, List.nil_append]
        rw [parseStrBody_esc (decodeEsc_self (Or.inr (Or.inl rfl))) iht]
      · by_cases h3 : 32 ≤ c.toNat ∧ c.toNat ≤ 126
        · have h32 : ¬ c.toNat < 32 := by omega
          rw [escChar, if_neg h1, if_neg h2, if_pos h3]
          simp only [List.cons_append, List.nil_append]
          rw [parseStrBody_raw h1 h2 h32 iht]
        · by_cases h8 : c.toNat = 8
          · have pf8 : Nat.isValidChar 8 := Or.inl (by omega)
            have hc : Char.ofNatAux 8 pf8 = c := char_toNat_inj (by rw [h8]; rfl)
            rw [escChar, if_neg h1, if_neg h2, if_neg h3, if_pos h8]
            simp only [List.cons_append, List.nil_append]
            rw [parseStrBody_esc (decodeEsc_b pf8) iht, hc]
          · by_cases h9 : c.toNat = 9
            · have hc : '\t' = c := char_toNat_inj (by rw [h9]; rfl)
              rw [escChar, if_neg h1, if_neg h2, if_neg h3, if_neg h8, if_pos h9]
              simp only [List.cons_append, List.nil_append]
              rw [parseStrBody_esc (decodeEsc_t _) iht, hc]
            · by_cases h10 : c.toNat = 10
              · have hc : '\n' = c := char_toNat_inj (by rw [h10]; rfl)
                rw [escChar, if_neg h1, if_neg h2, if_neg h3, if_neg h8, if_neg h9,
                  if_pos h10]
                simp only [List.cons_append, List.nil_append]
                rw [parseStrBody_esc (decodeEsc_n _) iht, hc]
              · by_cases h12 : c.toNat = 12
                · have pf12 : Nat.isValidChar 12 := Or.inl (by omega)
                  have hc : Char.ofNatAux 12 pf12 = c := char_toNat_inj (by rw [h12]; rfl)
                  rw [escChar, if_neg h1, if_neg h2, if_neg h3, if_neg h8, if_neg h9,
                    if_neg h10, if_pos h12]
                  simp only [List.cons_append, List.nil_append]
                  rw [parseStrBody_esc (decodeEsc_f pf12) iht, hc]
                · by_cases h13 : c.toNat = 13
                  · have hc : '\r' = c := char_toNat_inj (by rw [h13]; rfl)
                    rw [escChar, if_neg h1, if_neg h2, if_neg h3, if_neg h8, if_neg h9,
                      if_neg h10, if_neg h12, if_pos h13]
                    simp only [List.cons_append, List.nil_append]
                    rw [parseStrBody_esc (decodeEsc_r _) iht, hc]
                  · by_cases h16 : c.toNat < 65536
                    · rw [escChar, if_neg h1, if_neg h2, if_neg h3, if_neg h8, if_neg h9,
                        if_neg h10, if_neg h12, if_neg h13, if_pos h16, hex4]
                      simp only [List.cons_append, List.nil_append]
                      rcases char_valid c with hv | hv
                      · rw [parseStrBody_esc
                          (decodeEsc_u_bmp (readHex4_hex4 h16) hv (Or.inl hv)) iht,
                          ofNatAux_self]
                      · rw [parseStrBody_esc (decodeEsc_u_upper (readHex4_hex4 h16) hv.1
                          h16 (Or.inr ⟨hv.1, hv.2⟩)) iht, ofNatAux_self]
                    · have hlt : c.toNat < 1114112 := by
                        rcases char_valid c with h | h <;> omega
                      have hhi16 : 55296 + (c.toNat - 65536) / 1024 < 65536 := by omega
                      have hlo16 : 56320 + (c.toNat - 65536) % 1024 < 65536 := by omega
                      have hia : ¬ 55296 + (c.toNat - 65536) / 1024 < 55296 := by omega
                      have hib : 55296 + (c.toNat - 65536) / 1024 ≤ 56319 := by omega
                      have hlo : 56320 ≤ 56320 + (c.toNat - 65536) % 1024 ∧
                          56320 + (c.toNat - 65536) % 1024 ≤ 57343 := ⟨by omega, by omega⟩
                      have pfs : Nat.isValidChar (65536 +
                          (55296 + (c.toNat - 65536) / 1024 - 55296) * 1024 +
                          (56320 + (c.toNat - 65536) % 1024 - 56320)) :=
                        Or.inr ⟨by omega, by omega⟩
                      have hcfin : Char.ofNatAux (65536 +
                          (55296 + (c.toNat - 65536) / 1024 - 55296) * 1024 +
                          (56320 + (c.toNat - 65536) % 1024 - 56320)) pfs = c := by
                        apply char_toNat_inj
                        show 65536 + (55296 + (c.toNat - 65536) / 1024 - 55296) * 1024 +
                          (56320 + (c.toNat - 65536) % 1024 - 56320) = c.toNat
                        omega
                      rw [escChar, if_neg h1, if_neg h2, if_neg h3, if_neg h8, if_neg h9,
                        if_neg h10, if_neg h12, if_neg h13, if_neg h16]
                      simp only [hex4, List.cons_append, List.nil_append,
                        List.append_assoc]
                      rw [parseStrBody_esc (decodeEsc_u_sur (readHex4_hex4 hhi16) hia hib
                        (readHex4_hex4 hlo16) hlo pfs) iht, hcfin]

/-! ## JSON values

`JVal` models the JSON documents the monitors produce and persist
(numbers restricted to integers — the only numbers the monitors store).
Objects are association lists in insertion order, matching Python dicts. -/

mutual
inductive JVal : Type where
  | jnull : JVal
  | jbool (b : Bool) : JVal
  | jint (n : Int) : JVal
  | jstr (s : Str) : JVal
  | jarr (a : JArr) : JVal
  | jobj (o : JObj) : JVal
  deriving DecidableEq
inductive JArr : Type where
  | nil : JArr
  | cons (hd : JVal) (tl : JArr) : JArr
  deriving DecidableEq
inductive JObj : Type where
  | nil : JObj
  | cons (key : Str) (val : JVal) (tl : JObj) : JObj
  deriving DecidableEq
end

/-! ## The printer: Python `json.dumps`

`ind = none` is the compact default (separators `', '` and `': '`), used by
the countdown hash `json.dumps(countdowns, sort_keys=True)`; `ind = some 2`
is `json.dumps(state, indent=2)`, used by every `save_state`.  `d` is the
current nesting depth. -/

/-- Whitespace emitted after an opening bracket. -/
def openWs : Option Nat → Nat → Str
  | none, _ => []
  | some w, d => '\n' :: List.replicate (w * d) ' '

/-- Whitespace emitted after an item-separating comma. -/
def sepWs : Option Nat → Nat → Str
  | none, _ => [' ']
  | some w, d => '\n' :: List.replicate (w * d) ' '

/-- Whitespace emitted before a closing bracket. -/
def closeWs : Option Nat → Nat → Str
  | none, _ => []
  | some w, d => '\n' :: List.replicate (w * d) ' '

mutual
/-- Python `json.dumps` of one JSON value. -/
def jdump : JVal → Option Nat → Nat → Str
  | .jnull, _, _ => ['n', 'u', 'l', 'l']
  | .jbool true, _, _ => ['t', 'r', 'u', 'e']
  | .jbool false, _, _ => ['f', 'a', 'l', 's', 'e']
  | .jint n, _, _ => intChars n
  | .jstr s, _, _ => '"' :: jescape s ++ ['"']
  | .jarr .nil, _, _ => ['[', ']']
  | .jarr (.cons h t), ind, d =>
    '[' :: (openWs ind (d + 1) ++ jdumpElems (.cons h t) ind (d + 1) ++
      closeWs ind d) ++ [']']
  | .jobj .nil, _, _ => ['{', '}']
  | .jobj (.cons k v t), ind, d =>
    '{' :: (openWs ind (d + 1) ++ jdumpMems (.cons k v t) ind (d + 1) ++
      closeWs ind d) ++ ['}']
/-- The comma-separated element list of a JSON array. -/
def jdumpElems : JArr → Option Nat → Nat → Str
  | .nil, _, _ => []
  | .cons h .nil, ind, d => jdump h ind d
  | .cons h (.cons h2 t), ind, d =>
    jdump h ind d ++ ',' :: sepWs ind d ++ jdumpElems (.cons h2 t) ind d
/-- The comma-separated member list of a JSON object (`"key": value`). -/
def jdumpMems : JObj → Option Nat → Nat → Str
  | .nil, _, _ => []
  | .cons k v .nil, ind, d => '"' :: jescape k ++ '"' :: ':' :: ' ' :: jdump v ind d
  | .cons k v (.cons k2 v2 t), ind, d =>
    ('"' :: jescape k ++ '"' :: ':' :: ' ' :: jdump v ind d) ++
      ',' :: sepWs ind d ++ jdumpMems (.cons k2 v2 t) ind d
end

theorem allWs_replicate (n : Nat) : allWs (List.replicate n ' ') = true := by
  induction n with
  | zero => rfl
  | succ n ih => simp [List.replicate, allWs, ih, wsChar]

theorem allWs_openWs (ind : Option Nat) (d : Nat) : allWs (openWs ind d) = true := by
  cases ind <;> simp [openWs, allWs, wsChar, allWs_replicate]

theorem allWs_sepWs (ind : Option Nat) (d : Nat) : allWs (sepWs ind d) = true := by
  cases ind <;> simp [sepWs, allWs, wsChar, allWs_replicate]

theorem allWs_closeWs (ind : Option Nat) (d : Nat) : allWs (closeWs ind d) = true := by
  cases ind <;> simp [closeWs, allWs, wsChar, allWs_replicate]

theorem escChar_len (c : Char) : 1 ≤ (escChar c).length := by
  rw [escChar]
  split_ifs <;> simp [hex4]

theorem jescape_len (s : Str) : s.length ≤ (jescape s).length := by
  induction s with
  | nil => simp [jescape]
  | cons c t ih =>
    have := escChar_len c
    simp only [jescape, List.length_append, List.length_cons]
    omega

/-- Every printed JSON value starts with a character that is not whitespace,
not a digit continuation hazard for the surrounding list, and distinct from
the structural characters that close a container. -/
theorem jdump_head (v : JVal) (ind : Option Nat) (d : Nat) :
    ∃ c0 X, jdump v ind d = c0 :: X ∧ wsChar c0 = false ∧
      ¬ c0 = ']' ∧ ¬ c0 = '}' ∧ ¬ c0 = ',' := by
  cases v with
  | jnull => exact ⟨'n', _, rfl, by decide, by decide, by decide, by decide⟩
  | jbool b =>
    cases b
    · exact ⟨'f', _, rfl, by decide, by decide, by decide, by decide⟩
    · exact ⟨'t', _, rfl, by decide, by decide, by decide, by decide⟩
  | jint n =>
    show ∃ c0 X, intChars n = c0 :: X ∧ _
    rw [intChars]
    by_cases hn : n < 0
    · exact ⟨'-', _, by rw [if_pos hn], by decide, by decide, by decide, by decide⟩
    · rw [if_neg hn]
      obtain ⟨c0, X, hcx, hd⟩ := natChars_head n.toNat
      have hb := isDigit_toNat hd
      refine ⟨c0, X, hcx, ?_, ?_, ?_, ?_⟩
      · simp only [wsChar, Bool.or_eq_false_iff, decide_eq_false_iff_not]
        refine ⟨⟨⟨?_, ?_⟩, ?_⟩, ?_⟩ <;> intro h <;> subst h <;> revert hb <;> decide
      · intro h; subst h; revert hb; decide
      · intro h; subst h; revert hb; decide
      · intro h; subst h; revert hb; decide
  | jstr s => exact ⟨'"', _, rfl, by decide, by decide, by decide, by decide⟩
  | jarr a =>
    cases a with
    | nil => exact ⟨'[', _, rfl, by decide, by decide, by decide, by decide⟩
    | cons h t => exact ⟨'[', _, rfl, by decide, by decide, by decide, by decide⟩
  | jobj o =>
    cases o with
    | nil => exact ⟨'{', _, rfl, by decide, by decide, by decide, by decide⟩
    | cons k v t => exact ⟨'{', _, rfl, by decide, by decide, by decide, by decide⟩

theorem jdump_len_pos (v : JVal) (ind : Option Nat) (d : Nat) :
    1 ≤ (jdump v ind d).length := by
  obtain ⟨c0, X, hcx, -⟩ := jdump_head v ind d
  simp [hcx]

/-! ## The parser: Python `json.loads`

A fuel-indexed recursive-descent parser.  `PMode.val` parses one value,
`PMode.elems` the non-empty tail of an array (returning it as `.jarr`),
`PMode.mems` the non-empty member list of an object (returning `.jobj`).
Numbers are integers (the monitors never store floats). -/

inductive PMode : Type where
  | val : PMode
  | elems : PMode
  | mems : PMode

def parseP : Nat → PMode → Str → Option (JVal × Str)
  | 0, _, _ => none
  | fuel + 1, .val, s =>
    match skipWs s with
    | [] => none
    | c :: cs =>
      if c.isDigit then
        match readNum (c :: cs) with
        | some (n, r2) => some (.jint (n : Int), r2)
        | none => none
      else if c = '-' then
        match readNum cs with
        | some (n, r2) => some (.jint (-(n : Int)), r2)
        | none => none
      else if c = 'n' then
        match cs with
        | 'u' :: 'l' :: 'l' :: r => some (.jnull, r)
        | _ => none
      else if c = 't' then
        match cs with
        | 'r' :: 'u' :: 'e' :: r => some (.jbool true, r)
        | _ => none
      else if c = 'f' then
        match cs with
        | 'a' :: 'l' :: 's' :: 'e' :: r => some (.jbool false, r)
        | _ => none
      else if c = '"' then
        match parseStrBody (cs.length + 1) cs with
        | some (str, r2) => some (.jstr str, r2)
        | none => none
      else if c = '[' then
        match skipWs cs with
        | ']' :: r2 => some (.jarr .nil, r2)
        | _ => parseP fuel .elems cs
      else if c = '{' then
        match skipWs cs with
        | '}' :: r2 => some (.jobj .nil, r2)
        | _ => parseP fuel .mems cs
      else none
  | fuel + 1, .elems, s =>
    match parseP fuel .val s with
    | some (v, r) =>
      match skipWs r with
      | ',' :: r2 =>
        match parseP fuel .elems r2 with
        | some (.jarr tl, r3) => some (.jarr (.cons v tl), r3)
        | _ => none
      | ']' :: r2 => some (.jarr (.cons v .nil), r2)
      | _ => none
    | none => none
  | fuel + 1, .mems, s =>
    match skipWs s with
    | '"' :: r =>
      match parseStrBody (r.length + 1) r with
      | some (k, r2) =>
        match skipWs r2 with
        | ':' :: r3 =>
          match parseP fuel .val r3 with
          | some (v, r4) =>
            match skipWs r4 with
            | ',' :: r5 =>
              match parseP fuel .mems r5 with
              | some (.jobj tl, r6) => some (.jobj (.cons k v tl), r6)
              | _ => none
            | '}' :: r5 => some (.jobj (.cons k v .nil), r5)
            | _ => none
          | none => none
        | _ => none
      | none => none
    | _ => none

theorem parseP_val_ws {w : Str} (hw : allWs w = true) (fuel : Nat) (s : Str) :
    parseP fuel .val (w ++ s) = parseP fuel .val s := by
  cases fuel with
  | zero => rfl
  | succ f => simp only [parseP, skipWs_append hw]

theorem parseP_mems_ws {w : Str} (hw : allWs w = true) (fuel : Nat) (s : Str) :
    parseP fuel .mems (w ++ s) = parseP fuel .mems s := by
  cases fuel with
  | zero => rfl
  | succ f => simp only [parseP, skipWs_append hw]

/-! ## Fuel needed by the parser on printed output -/

mutual
def jfuelV : JVal → Nat
  | .jnull => 1
  | .jbool _ => 1
  | .jint _ => 1
  | .jstr _ => 1
  | .jarr .nil => 1
  | .jarr (.cons h t) => 1 + jfuelE (.cons h t)
  | .jobj .nil => 1
  | .jobj (.cons k v t) => 1 + jfuelM (.cons k v t)
def jfuelE : JArr → Nat
  | .nil => 0
  | .cons h t => 1 + max (jfuelV h) (jfuelE t)
def jfuelM : JObj → Nat
  | .nil => 0
  | .cons _ v t => 1 + max (jfuelV v) (jfuelM t)
end

mutual
theorem jfuelV_le : ∀ (v : JVal) (ind : Option Nat) (d : Nat),
    jfuelV v ≤ (jdump v ind d).length + 1
  | .jnull, _, _ => by simp [jfuelV, jdump]
  | .jbool true, _, _ => by simp [jfuelV, jdump]
  | .jbool false, _, _ => by simp [jfuelV, jdump]
  | .jint n, _, _ => by simp [jfuelV, jdump]
  | .jstr s, _, _ => by simp [jfuelV, jdump]
  | .jarr .nil, _, _ => by simp [jfuelV, jdump]
  | .jarr (.cons h t), ind, d => by
    have := jfuelE_le (.cons h t) ind (d + 1)
    simp only [jfuelV, jdump, List.length_cons, List.length_append]
    omega
  | .jobj .nil, _, _ => by simp [jfuelV, jdump]
  | .jobj (.cons k v t), ind, d => by
    have := jfuelM_le (.cons k v t) ind (d + 1)
    simp only [jfuelV, jdump, List.length_cons, List.length_append]
    omega
theorem jfuelE_le : ∀ (a : JArr) (ind : Option Nat) (d : Nat),
    jfuelE a ≤ (jdumpElems a ind d).length + 2
  | .nil, _, _ => by simp [jfuelE, jdumpElems]
  | .cons h .nil, ind, d => by
    have := jfuelV_le h ind d
    simp only [jfuelE, jfuelE.eq_1, jdumpElems]
    omega
  | .cons h (.cons h2 t), ind, d => by
    have hh1 := jfuelV_le h ind d
    have hh2 := jfuelE_le (.cons h2 t) ind d
    have hh3 := jdump_len_pos h ind d
    have hh4 : jfuelE (.cons h2 t) = 1 + max (jfuelV h2) (jfuelE t) := by
      simp [jfuelE]
    simp only [jfuelE, jdumpElems, List.length_append, List.length_cons]
    omega
theorem jfuelM_le : ∀ (o : JObj) (ind : Option Nat) (d : Nat),
    jfuelM o ≤ (jdumpMems o ind d).length + 2
  | .nil, _, _ => by simp [jfuelM, jdumpMems]
  | .cons k v .nil, ind, d => by
    have := jfuelV_le v ind d
    simp only [jfuelM, jfuelM.eq_1, jdumpMems, List.length_append, List.length_cons]
    omega
  | .cons k v (.cons k2 v2 t), ind, d => by
    have hh1 := jfuelV_le v ind d
    have hh2 := jfuelM_le (.cons k2 v2 t) ind d
    have hh3 := jdump_len_pos v ind d
    have hh4 : jfuelM (.cons k2 v2 t) = 1 + max (jfuelV v2) (jfuelM t) := by
      simp [jfuelM]
    simp only [jfuelM, jdumpMems, List.length_append, List.length_cons]
    omega
end

theorem noDigit_cons {c : Char} (X : Str) (h : c.isDigit = false) : noDigit (c :: X) := h

theorem parseP_val_cons_ws {c : Char} (hc : wsChar c = true) (fuel : Nat) (s : Str) :
    parseP fuel .val (c :: s) = parseP fuel .val s := by
  cases fuel with
  | zero => rfl
  | succ f => simp only [parseP, skipWs, hc, if_true]

theorem parseP_val_null {fuel : Nat} {s r : Str}
    (hs : skipWs s = 'n' :: 'u' :: 'l' :: 'l' :: r) :
    parseP (fuel + 1) .val s = some (.jnull, r) := by
  simp [parseP, hs]

theorem parseP_val_true {fuel : Nat} {s r : Str}
    (hs : skipWs s = 't' :: 'r' :: 'u' :: 'e' :: r) :
    parseP (fuel + 1) .val s = some (.jbool true, r) := by
  simp [parseP, hs]

theorem parseP_val_false {fuel : Nat} {s r : Str}
    (hs : skipWs s = 'f' :: 'a' :: 'l' :: 's' :: 'e' :: r) :
    parseP (fuel + 1) .val s = some (.jbool false, r) := by
  simp [parseP, hs]

theorem parseP_val_nat {fuel : Nat} {s cs r2 : Str} {c : Char} {n : Nat}
    (hs : skipWs s = c :: cs) (hc : c.isDigit = true)
    (h : readNum (c :: cs) = some (n, r2)) :
    parseP (fuel + 1) .val s = some (.jint (n : Int), r2) := by
  simp [parseP, hs, hc, h]

theorem parseP_val_neg {fuel : Nat} {s cs r2 : Str} {n : Nat}
    (hs : skipWs s = '-' :: cs) (h : readNum cs = some (n, r2)) :
    parseP (fuel + 1) .val s = some (.jint (-(n : Int)), r2) := by
  simp [parseP, hs, h]

theorem parseP_val_str {fuel : Nat} {s cs r2 : Str} {str : Str}
    (hs : skipWs s = '"' :: cs) (h : parseStrBody (cs.length + 1) cs = some (str, r2)) :
    parseP (fuel + 1) .val s = some (.jstr str, r2) := by
  simp [parseP, hs, h]

theorem parseP_val_arr_nil {fuel : Nat} {s cs r2 : Str}
    (hs : skipWs s = '[' :: cs) (h2 : skipWs cs = ']' :: r2) :
    parseP (fuel + 1) .val s = some (.jarr .nil, r2) := by
  simp [parseP, hs, h2]

theorem parseP_val_obj_nil {fuel : Nat} {s cs r2 : Str}
    (hs : skipWs s = '{' :: cs) (h2 : skipWs cs = '}' :: r2) :
    parseP (fuel + 1) .val s = some (.jobj .nil, r2) := by
  simp [parseP, hs, h2]

theorem parseP_val_arr_step {fuel : Nat} {s cs X r : Str} {c0 : Char} {v : JVal}
    (hs : skipWs s = '[' :: cs) (hcs : skipWs cs = c0 :: X) (hc0 : ¬ c0 = ']')
    (h : parseP fuel .elems cs = some (v, r)) :
    parseP (fuel + 1) .val s = some (v, r) := by
  simp only [parseP]
  rw [hs]
  simp [hcs]
  split
  · rename_i r2 heq
    simp only [List.cons.injEq] at heq
    exact absurd heq.1 hc0
  · exact h

theorem parseP_val_obj_step {fuel : Nat} {s cs X r : Str} {c0 : Char} {v : JVal}
    (hs : skipWs s = '{' :: cs) (hcs : skipWs cs = c0 :: X) (hc0 : ¬ c0 = '}')
    (h : parseP fuel .mems cs = some (v, r)) :
    parseP (fuel + 1) .val s = some (v, r) := by
  simp only [parseP]
  rw [hs]
  simp [hcs]
  split
  · rename_i r2 heq
    simp only [List.cons.injEq] at heq
    exact absurd heq.1 hc0
  · exact h

theorem parseP_elems_done {fuel : Nat} {s r2 r3 : Str} {v : JVal}
    (h1 : parseP fuel .val s = some (v, r2)) (h2 : skipWs r2 = ']' :: r3) :
    parseP (fuel + 1) .elems s = some (.jarr (.cons v .nil), r3) := by
  simp [parseP, h1, h2]

theorem parseP_elems_more {fuel : Nat} {s r2 r3 r4 : Str} {v : JVal} {tl : JArr}
    (h1 : parseP fuel .val s = some (v, r2)) (h2 : skipWs r2 = ',' :: r3)
    (h3 : parseP fuel .elems r3 = some (.jarr tl, r4)) :
    parseP (fuel + 1) .elems s = some (.jarr (.cons v tl), r4) := by
  simp [parseP, h1, h2, h3]

theorem parseP_mems_done {fuel : Nat} {s r r2 r3 r4 r5 : Str} {k : Str} {v : JVal}
    (h0 : skipWs s = '"' :: r) (h1 : parseStrBody (r.length + 1) r = some (k, r2))
    (h2 : skipWs r2 = ':' :: r3) (h3 : parseP fuel .val r3 = some (v, r4))
    (h4 : skipWs r4 = '}' :: r5) :
    parseP (fuel + 1) .mems s = some (.jobj (.cons k v .nil), r5) := by
  simp [parseP, h0, h1, h2, h3, h4]

theorem parseP_mems_more {fuel : Nat} {s r r2 r3 r4 r5 r6 : Str} {k : Str} {v : JVal}
    {tl : JObj} (h0 : skipWs s = '"' :: r)
    (h1 : parseStrBody (r.length + 1) r = some (k, r2))
    (h2 : skipWs r2 = ':' :: r3) (h3 : parseP fuel .val r3 = some (v, r4))
    (h4 : skipWs r4 = ',' :: r5) (h5 : parseP fuel .mems r5 = some (.jobj tl, r6)) :
    parseP (fuel + 1) .mems s = some (.jobj (.cons k v tl), r6) := by
  simp [parseP, h0, h1, h2, h3, h4, h5]

theorem digit_not_ws {c : Char} (hd : c.isDigit = true) : wsChar c = false := by
  have hb := isDigit_toNat hd
  simp only [wsChar, Bool.or_eq_false_iff, decide_eq_false_iff_not]
  refine ⟨⟨⟨?_, ?_⟩, ?_⟩, ?_⟩ <;> intro h <;> subst h <;> revert hb <;> decide

theorem jfuelV_pos (v : JVal) : 1 ≤ jfuelV v := by
  cases v with
  | jnull => simp [jfuelV]
  | jbool b => simp [jfuelV]
  | jint n => simp [jfuelV]
  | jstr s => simp [jfuelV]
  | jarr a => cases a <;> simp [jfuelV]
  | jobj o => cases o <;> simp [jfuelV]

theorem jdumpElems_cons_eq (h : JVal) (t : JArr) (ind : Option Nat) (d : Nat) :
    ∃ Z, jdumpElems (.cons h t) ind d = jdump h ind d ++ Z := by
  cases t with
  | nil => exact ⟨[], by simp [jdumpElems]⟩
  | cons h2 t2 =>
    exact ⟨',' :: (sepWs ind d ++ jdumpElems (.cons h2 t2) ind d), by simp [jdumpElems]⟩

theorem jdumpMems_cons_head (k : Str) (v : JVal) (t : JObj) (ind : Option Nat) (d : Nat) :
    ∃ Z, jdumpMems (.cons k v t) ind d = '"' :: Z := by
  cases t with
  | nil =>
    exact ⟨jescape k ++ '"' :: ':' :: ' ' :: jdump v ind d, by simp [jdumpMems]⟩
  | cons k2 v2 t2 =>
    exact ⟨jescape k ++ '"' :: ':' :: ' ' :: (jdump v ind d ++ ',' ::
      (sepWs ind d ++ jdumpMems (.cons k2 v2 t2) ind d)), by simp [jdumpMems]⟩

mutual
/-- Round trip: the parser recovers exactly the value the printer printed,
in both the compact and the indented mode, for any fuel at least `jfuelV`. -/
theorem rt_val : ∀ (v : JVal) (ind : Option Nat) (d : Nat) (r : Str) (f : Nat),
    jfuelV v ≤ f → noDigit r → parseP f .val (jdump v ind d ++ r) = some (v, r)
  | .jnull, ind, d, r, f, hf, hr => by
    have hf1 : 1 ≤ f := le_trans (jfuelV_pos _) hf
    obtain ⟨f', rfl⟩ : ∃ f', f = f' + 1 := ⟨f - 1, by omega⟩
    rw [jdump]
    simp only [List.cons_append, List.nil_append]
    exact parseP_val_null (skipWs_cons _ (by decide))
  | .jbool true, ind, d, r, f, hf, hr => by
    have hf1 : 1 ≤ f := le_trans (jfuelV_pos _) hf
    obtain ⟨f', rfl⟩ : ∃ f', f = f' + 1 := ⟨f - 1, by omega⟩
    rw [jdump]
    simp only [List.cons_append, List.nil_append]
    exact parseP_val_true (skipWs_cons _ (by decide))
  | .jbool false, ind, d, r, f, hf, hr => by
    have hf1 : 1 ≤ f := le_trans (jfuelV_pos _) hf
    obtain ⟨f', rfl⟩ : ∃ f', f = f' + 1 := ⟨f - 1, by omega⟩
    rw [jdump]
    simp only [List.cons_append, List.nil_append]
    exact parseP_val_false (skipWs_cons _ (by decide))
  | .jint n, ind, d, r, f, hf, hr => by
    have hf1 : 1 ≤ f := le_trans (jfuelV_pos _) hf
    obtain ⟨f', rfl⟩ : ∃ f', f = f' + 1 := ⟨f - 1, by omega⟩
    rw [jdump, intChars]
    by_cases hn : n < 0
    · rw [if_pos hn]
      simp only [List.cons_append]
      rw [parseP_val_neg (skipWs_cons _ (by decide)) (readNum_natChars n.natAbs hr)]
      have : -(n.natAbs : Int) = n := by omega
      rw [this]
    · rw [if_neg hn]
      obtain ⟨c, cs0, hcx, hd⟩ := natChars_head n.toNat
      have hrn : readNum (c :: (cs0 ++ r)) = some (n.toNat, r) := by
        rw [← List.cons_append, ← hcx]
        exact readNum_natChars _ hr
      rw [hcx]
      simp only [List.cons_append]
      rw [parseP_val_nat (skipWs_cons _ (digit_not_ws hd)) hd hrn]
      have : ((n.toNat : Nat) : Int) = n := by omega
      rw [this]
  | .jstr s, ind, d, r, f, hf, hr => by
    have hf1 : 1 ≤ f := le_trans (jfuelV_pos _) hf
    obtain ⟨f', rfl⟩ : ∃ f', f = f' + 1 := ⟨f - 1, by omega⟩
    rw [jdump]
    simp only [List.cons_append, List.append_assoc, List.nil_append]
    refine parseP_val_str (skipWs_cons _ (by decide)) ?_
    refine parseStr_rt s r _ ?_
    have := jescape_len s
    simp only [List.length_append, List.length_cons]
    omega
  | .jarr .nil, ind, d, r, f, hf, hr => by
    have hf1 : 1 ≤ f := le_trans (jfuelV_pos _) hf
    obtain ⟨f', rfl⟩ : ∃ f', f = f' + 1 := ⟨f - 1, by omega⟩
    rw [jdump]
    simp only [List.cons_append, List.nil_append]
    exact parseP_val_arr_nil (skipWs_cons _ (by decide)) (skipWs_cons _ (by decide))
  | .jarr (.cons h t), ind, d, r, f, hf, hr => by
    have hf' := hf
    simp only [jfuelV] at hf'
    obtain ⟨f', rfl⟩ : ∃ f', f = f' + 1 := ⟨f - 1, by omega⟩
    rw [jdump]
    simp only [List.cons_append, List.append_assoc, List.nil_append]
    obtain ⟨Z, hz⟩ := jdumpElems_cons_eq h t ind (d + 1)
    obtain ⟨c0, X, hcx, hnw, hne1, hne2, hne3⟩ := jdump_head h ind (d + 1)
    have hcs : skipWs (openWs ind (d + 1) ++ (jdumpElems (.cons h t) ind (d + 1) ++
        (closeWs ind d ++ ']' :: r))) = c0 :: (X ++ (Z ++ (closeWs ind d ++ ']' :: r))) := by
      rw [skipWs_append (allWs_openWs _ _), hz, hcx]
      simp only [List.cons_append, List.append_assoc]
      exact skipWs_cons _ hnw
    refine parseP_val_arr_step (skipWs_cons _ (by decide)) hcs hne1 ?_
    exact rt_elems (.cons h t) ind (d + 1) (openWs ind (d + 1)) (closeWs ind d) r f'
      (by intro hx; cases hx) (allWs_openWs _ _) (allWs_closeWs _ _) (by omega)
  | .jobj .nil, ind, d, r, f, hf, hr => by
    have hf1 : 1 ≤ f := le_trans (jfuelV_pos _) hf
    obtain ⟨f', rfl⟩ : ∃ f', f = f' + 1 := ⟨f - 1, by omega⟩
    rw [jdump]
    simp only [List.cons_append, List.nil_append]
    exact parseP_val_obj_nil (skipWs_cons _ (by decide)) (skipWs_cons _ (by decide))
  | .jobj (.cons k v t), ind, d, r, f, hf, hr => by
    have hf' := hf
    simp only [jfuelV] at hf'
    obtain ⟨f', rfl⟩ : ∃ f', f = f' + 1 := ⟨f - 1, by omega⟩
    rw [jdump]
    simp only [List.cons_append, List.append_assoc, List.nil_append]
    obtain ⟨Z, hz⟩ := jdumpMems_cons_head k v t ind (d + 1)
    have hcs : skipWs (openWs ind (d + 1) ++ (jdumpMems (.cons k v t) ind (d + 1) ++
        (closeWs ind d ++ '}' :: r))) = '"' :: (Z ++ (closeWs ind d ++ '}' :: r)) := by
      rw [skipWs_append (allWs_openWs _ _), hz]
      simp only [List.cons_append, List.append_assoc]
      exact skipWs_cons _ (by decide)
    refine parseP_val_obj_step (skipWs_cons _ (by decide)) hcs (by decide) ?_
    exact rt_mems (.cons k v t) ind (d + 1) (openWs ind (d + 1)) (closeWs ind d) r f'
      (by intro hx; cases hx) (allWs_openWs _ _) (allWs_closeWs _ _) (by omega)
/-- Round trip for the element list of a non-empty array. -/
theorem rt_elems : ∀ (a : JArr) (ind : Option Nat) (d : Nat) (lead cws r : Str)
    (f : Nat), a ≠ .nil → allWs lead = true → allWs cws = true → jfuelE a ≤ f →
    parseP f .elems (lead ++ (jdumpElems a ind d ++ (cws ++ ']' :: r))) =
      some (.jarr a, r)
  | .nil, _, _, _, _, _, _, hne, _, _, _ => absurd rfl hne
  | .cons h .nil, ind, d, lead, cws, r, f, _, hlead, hcws, hf => by
    have hf' := hf
    simp only [jfuelE] at hf'
    obtain ⟨f', rfl⟩ : ∃ f', f = f' + 1 := ⟨f - 1, by omega⟩
    rw [jdumpElems]
    have h1 : parseP f' .val (lead ++ (jdump h ind d ++ (cws ++ ']' :: r))) =
        some (h, cws ++ ']' :: r) := by
      rw [parseP_val_ws hlead]
      exact rt_val h ind d (cws ++ ']' :: r) f' (by omega)
        (noDigit_append_ws hcws (noDigit_cons _ (by decide)))
    have h2 : skipWs (cws ++ ']' :: r) = ']' :: r := by
      rw [skipWs_append hcws]
      exact skipWs_cons _ (by decide)
    exact parseP_elems_done h1 h2
  | .cons h (.cons h2 t), ind, d, lead, cws, r, f, _, hlead, hcws, hf => by
    have hf' := hf
    simp only [jfuelE] at hf'
    obtain ⟨f', rfl⟩ : ∃ f', f = f' + 1 := ⟨f - 1, by omega⟩
    rw [jdumpElems]
    simp only [List.cons_append, List.append_assoc]
    have h1 : parseP f' .val (lead ++ (jdump h ind d ++ (',' :: (sepWs ind d ++
        (jdumpElems (.cons h2 t) ind d ++ (cws ++ ']' :: r)))))) =
        some (h, ',' :: (sepWs ind d ++ (jdumpElems (.cons h2 t) ind d ++
          (cws ++ ']' :: r)))) := by
      rw [parseP_val_ws hlead]
      exact rt_val h ind d _ f' (by omega) (noDigit_cons _ (by decide))
    have h2' : skipWs (',' :: (sepWs ind d ++ (jdumpElems (.cons h2 t) ind d ++
        (cws ++ ']' :: r)))) = ',' :: (sepWs ind d ++ (jdumpElems (.cons h2 t) ind d ++
        (cws ++ ']' :: r))) := skipWs_cons _ (by decide)
    have h3 : parseP f' .elems (sepWs ind d ++ (jdumpElems (.cons h2 t) ind d ++
        (cws ++ ']' :: r))) = some (.jarr (.cons h2 t), r) := by
      have he : jfuelE (.cons h2 t) = 1 + max (jfuelV h2) (jfuelE t) := by simp [jfuelE]
      exact rt_elems (.cons h2 t) ind d (sepWs ind d) cws r f' (by intro hx; cases hx)
        (allWs_sepWs _ _) hcws (by omega)
    exact parseP_elems_more h1 h2' h3
/-- Round trip for the member list of a non-empty object. -/
theorem rt_mems : ∀ (o : JObj) (ind : Option Nat) (d : Nat) (lead cws r : Str)
    (f : Nat), o ≠ .nil → allWs lead = true → allWs cws = true → jfuelM o ≤ f →
    parseP f .mems (lead ++ (jdumpMems o ind d ++ (cws ++ '}' :: r))) =
      some (.jobj o, r)
  | .nil, _, _, _, _, _, _, hne, _, _, _ => absurd rfl hne
  | .cons k v .nil, ind, d, lead, cws, r, f, _, hlead, hcws, hf => by
    have hf' := hf
    simp only [jfuelM] at hf'
    obtain ⟨f', rfl⟩ : ∃ f', f = f' + 1 := ⟨f - 1, by omega⟩
    rw [jdumpMems]
    simp only [List.cons_append, List.append_assoc]
    have h0 : skipWs (lead ++ ('"' :: (jescape k ++ ('"' :: ':' :: ' ' ::
        (jdump v ind d ++ (cws ++ '}' :: r)))))) = '"' :: (jescape k ++
        ('"' :: ':' :: ' ' :: (jdump v ind d ++ (cws ++ '}' :: r)))) := by
      rw [skipWs_append hlead]
      exact skipWs_cons _ (by decide)
    have h1 : parseStrBody ((jescape k ++ ('"' :: ':' :: ' ' :: (jdump v ind d ++
        (cws ++ '}' :: r)))).length + 1) (jescape k ++ ('"' :: ':' :: ' ' ::
        (jdump v ind d ++ (cws ++ '}' :: r)))) = some (k, ':' :: ' ' ::
        (jdump v ind d ++ (cws ++ '}' :: r))) := by
      refine parseStr_rt k _ _ ?_
      have := jescape_len k
      simp only [List.length_append, List.length_cons]
      omega
    have h2 : skipWs (':' :: ' ' :: (jdump v ind d ++ (cws ++ '}' :: r))) =
        ':' :: (' ' :: (jdump v ind d ++ (cws ++ '}' :: r))) :=
      skipWs_cons _ (by decide)
    have h3 : parseP f' .val (' ' :: (jdump v ind d ++ (cws ++ '}' :: r))) =
        some (v, cws ++ '}' :: r) := by
      rw [parseP_val_cons_ws (by decide)]
      exact rt_val v ind d _ f' (by omega)
        (noDigit_append_ws hcws (noDigit_cons _ (by decide)))
    have h4 : skipWs (cws ++ '}' :: r) = '}' :: r := by
      rw [skipWs_append hcws]
      exact skipWs_cons _ (by decide)
    exact parseP_mems_done h0 h1 h2 h3 h4
  | .cons k v (.cons k2 v2 t), ind, d, lead, cws, r, f, _, hlead, hcws, hf => by
    have hf' := hf
    simp only [jfuelM] at hf'
    obtain ⟨f', rfl⟩ : ∃ f', f = f' + 1 := ⟨f - 1, by omega⟩
    rw [jdumpMems]
    simp only [List.cons_append, List.append_assoc]
    have h0 : skipWs (lead ++ ('"' :: (jescape k ++ ('"' :: ':' :: ' ' ::
        (jdump v ind d ++ (',' :: (sepWs ind d ++ (jdumpMems (.cons k2 v2 t) ind d ++
        (cws ++ '}' :: r))))))))) = '"' :: (jescape k ++ ('"' :: ':' :: ' ' ::
        (jdump v ind d ++ (',' :: (sepWs ind d ++ (jdumpMems (.cons k2 v2 t) ind d ++
        (cws ++ '}' :: r))))))) := by
      rw [skipWs_append hlead]
      exact skipWs_cons _ (by decide)
    have h1 : parseStrBody ((jescape k ++ ('"' :: ':' :: ' ' :: (jdump v ind d ++
        (',' :: (sepWs ind d ++ (jdumpMems (.cons k2 v2 t) ind d ++
        (cws ++ '}' :: r))))))).length + 1) (jescape k ++ ('"' :: ':' :: ' ' ::
        (jdump v ind d ++ (',' :: (sepWs ind d ++ (jdumpMems (.cons k2 v2 t) ind d ++
        (cws ++ '}' :: r))))))) = some (k, ':' :: ' ' :: (jdump v ind d ++
        (',' :: (sepWs ind d ++ (jdumpMems (.cons k2 v2 t) ind d ++
        (cws ++ '}' :: r)))))) := by
      refine parseStr_rt k _ _ ?_
      have := jescape_len k
      simp only [List.length_append, List.length_cons]
      omega
    have h2 : skipWs (':' :: ' ' :: (jdump v ind d ++ (',' :: (sepWs ind d ++
        (jdumpMems (.cons k2 v2 t) ind d ++ (cws ++ '}' :: r)))))) =
        ':' :: (' ' :: (jdump v ind d ++ (',' :: (sepWs ind d ++
        (jdumpMems (.cons k2 v2 t) ind d ++ (cws ++ '}' :: r)))))) :=
      skipWs_cons _ (by decide)
    have h3 : parseP f' .val (' ' :: (jdump v ind d ++ (',' :: (sepWs ind d ++
        (jdumpMems (.cons k2 v2 t) ind d ++ (cws ++ '}' :: r)))))) =
        some (v, ',' :: (sepWs ind d ++ (jdumpMems (.cons k2 v2 t) ind d ++
        (cws ++ '}' :: r)))) := by
      rw [parseP_val_cons_ws (by decide)]
      exact rt_val v ind d _ f' (by omega) (noDigit_cons _ (by decide))
    have h4 : skipWs (',' :: (sepWs ind d ++ (jdumpMems (.cons k2 v2 t) ind d ++
        (cws ++ '}' :: r)))) = ',' :: (sepWs ind d ++ (jdumpMems (.cons k2 v2 t) ind d ++
        (cws ++ '}' :: r))) := skipWs_cons _ (by decide)
    have h5 : parseP f' .mems (sepWs ind d ++ (jdumpMems (.cons k2 v2 t) ind d ++
        (cws ++ '}' :: r))) = some (.jobj (.cons k2 v2 t), r) := by
      have he : jfuelM (.cons k2 v2 t) = 1 + max (jfuelV v2) (jfuelM t) := by simp [jfuelM]
      exact rt_mems (.cons k2 v2 t) ind d (sepWs ind d) cws r f' (by intro hx; cases hx)
        (allWs_sepWs _ _) hcws (by omega)
    exact parseP_mems_more h0 h1 h2 h3 h4 h5
end

/-- Python `json.loads`: parse one value, requiring only trailing whitespace
after it (otherwise `ValueError`, modelled as `none`). -/
def jloads (s : Str) : Option JVal :=
  match parseP (s.length + 1) .val s with
  | some (v, r) => if skipWs r = [] then some v else none
  | none => none

theorem jloads_jdump (v : JVal) (ind : Option Nat) (d : Nat) :
    jloads (jdump v ind d) = some v := by
  have hb := jfuelV_le v ind d
  have h := rt_val v ind d [] ((jdump v ind d).length + 1) (by omega) trivial
  rw [List.append_nil] at h
  simp [jloads, h, skipWs]

/-- `json.dumps` output determines the value: distinct values have distinct
serializations (in either printing mode). -/
theorem jdump_inj {v1 v2 : JVal} {ind : Option Nat} {d : Nat}
    (h : jdump v1 ind d = jdump v2 ind d) : v1 = v2 := by
  have h1 := jloads_jdump v1 ind d
  have h2 := jloads_jdump v2 ind d
  rw [h] at h1
  exact Option.some.inj (h1.symm.trans h2)

/-! ## The countdown monitor's element records (countdown_monitor.py)

`check_for_countdown` appends one dict per hit; the four record shapes
below are the four appends (lines 122-154).  Attribute dicts are modelled
in canonical key-sorted form: `json.dumps(..., sort_keys=True)` prints a
Python dict's entries in sorted key order, so a sorted association list is
a faithful representative of the (unordered) dict. -/

/-- A BeautifulSoup attribute value: multi-valued attributes (like `class`)
are lists of strings, all others plain strings. -/
inductive AttrVal : Type where
  | vStr (s : Str) : AttrVal
  | vList (l : List Str) : AttrVal
  deriving DecidableEq

/-- Python string `<`: code-point lexicographic. -/
def strLt : Str → Str → Bool
  | [], [] => false
  | [], _ :: _ => true
  | _ :: _, [] => false
  | a :: as, b :: bs =>
    if a.toNat < b.toNat then true
    else if a.toNat = b.toNat then strLt as bs
    else false

/-- An attribute dict in canonical (strictly key-sorted) form. -/
abbrev AttrMap := { l : List (Str × AttrVal) // l.Pairwise (fun p q => strLt p.1 q.1 = true) }

/-- One record of `countdowns_found` (countdown_monitor.py lines 122-154). -/
inductive CdElem : Type where
  | script (content : Str) : CdElem
  | elementClass (tag : Str) (cls : Option (List Str)) (idAttr : Option Str)
      (text : Str) : CdElem
  | textMatch (text : Str) (parentTag : Option Str) : CdElem
  | dataAttribute (tag : Str) (attributes : AttrMap) (text : Str) : CdElem
  deriving DecidableEq

/-! JSON form of the records, with the keys of every object listed in
sorted order — exactly what `json.dumps(countdowns, sort_keys=True)`
serializes.  (Sorted orders: content < type;
class < id < tag < text < type; parent_tag < text < type;
attributes < tag < text < type.) -/

def strsToJArr : List Str → JArr
  | [] => .nil
  | s :: t => .cons (.jstr s) (strsToJArr t)

def attrValJ : AttrVal → JVal
  | .vStr s => .jstr s
  | .vList l => .jarr (strsToJArr l)

def attrsToJObj : List (Str × AttrVal) → JObj
  | [] => .nil
  | (k, v) :: t => .cons k (attrValJ v) (attrsToJObj t)

def optStrJ : Option Str → JVal
  | none => .jnull
  | some s => .jstr s

def clsJ : Option (List Str) → JVal
  | none => .jnull
  | some l => .jarr (strsToJArr l)

def jsonOfElem : CdElem → JVal
  | .script content => .jobj (.cons (S "content") (.jstr content)
      (.cons (S "type") (.jstr (S "script")) .nil))
  | .elementClass tag cls idAttr text => .jobj (.cons (S "class") (clsJ cls)
      (.cons (S "id") (optStrJ idAttr) (.cons (S "tag") (.jstr tag)
      (.cons (S "text") (.jstr text)
      (.cons (S "type") (.jstr (S "element_class")) .nil)))))
  | .textMatch text parentTag => .jobj (.cons (S "parent_tag") (optStrJ parentTag)
      (.cons (S "text") (.jstr text) (.cons (S "type") (.jstr (S "text_match")) .nil)))
  | .dataAttribute tag attributes text => .jobj (.cons (S "attributes")
      (.jobj (attrsToJObj attributes.1)) (.cons (S "tag") (.jstr tag)
      (.cons (S "text") (.jstr text)
      (.cons (S "type") (.jstr (S "data_attribute")) .nil))))

def jsonOfElems : List CdElem → JArr
  | [] => .nil
  | e :: t => .cons (jsonOfElem e) (jsonOfElems t)

/-- `countdown_hash = json.dumps(countdowns, sort_keys=True)`
(countdown_monitor.py line 179): compact separators, sorted keys. -/
def cdHash (l : List CdElem) : Str := jdump (.jarr (jsonOfElems l)) none 0

theorem strsToJArr_inj : ∀ {l1 l2 : List Str}, strsToJArr l1 = strsToJArr l2 → l1 = l2 := by
  intro l1
  induction l1 with
  | nil => intro l2 h; cases l2 with
    | nil => rfl
    | cons s t => simp [strsToJArr] at h
  | cons s t ih =>
    intro l2 h
    cases l2 with
    | nil => simp [strsToJArr] at h
    | cons s2 t2 =>
      simp only [strsToJArr, JArr.cons.injEq, JVal.jstr.injEq] at h
      rw [h.1, ih h.2]

theorem attrValJ_inj : ∀ {a b : AttrVal}, attrValJ a = attrValJ b → a = b := by
  intro a b h
  cases a <;> cases b
  · simp only [attrValJ, JVal.jstr.injEq] at h
    rw [h]
  · exact absurd h (by simp [attrValJ])
  · exact absurd h (by simp [attrValJ])
  · simp only [attrValJ, JVal.jarr.injEq] at h
    rw [strsToJArr_inj h]

theorem attrsToJObj_inj : ∀ {l1 l2 : List (Str × AttrVal)},
    attrsToJObj l1 = attrsToJObj l2 → l1 = l2 := by
  intro l1
  induction l1 with
  | nil => intro l2 h; cases l2 with
    | nil => rfl
    | cons p t => simp [attrsToJObj] at h
  | cons p t ih =>
    intro l2 h
    cases l2 with
    | nil => simp [attrsToJObj] at h
    | cons p2 t2 =>
      obtain ⟨k, v⟩ := p
      obtain ⟨k2, v2⟩ := p2
      simp only [attrsToJObj, JObj.cons.injEq] at h
      rw [h.1, attrValJ_inj h.2.1, ih h.2.2]

theorem optStrJ_inj : ∀ {a b : Option Str}, optStrJ a = optStrJ b → a = b := by
  intro a b h
  cases a <;> cases b
  · rfl
  · exact absurd h (by simp [optStrJ])
  · exact absurd h (by simp [optStrJ])
  · simp only [optStrJ, JVal.jstr.injEq] at h
    rw [h]

theorem clsJ_inj : ∀ {a b : Option (List Str)}, clsJ a = clsJ b → a = b := by
  intro a b h
  cases a <;> cases b
  · rfl
  · exact absurd h (by simp [clsJ])
  · exact absurd h (by simp [clsJ])
  · simp only [clsJ, JVal.jarr.injEq] at h
    rw [strsToJArr_inj h]

theorem jsonOfElem_inj : ∀ {e1 e2 : CdElem}, jsonOfElem e1 = jsonOfElem e2 → e1 = e2 := by
  intro e1 e2 h
  cases e1 <;> cases e2 <;>
    simp only [jsonOfElem, JVal.jobj.injEq, JObj.cons.injEq, JVal.jstr.injEq,
      true_and, and_true] at h
  · rw [h]
  · exact absurd h.1 (by decide)
  · exact absurd h.1 (by decide)
  · exact absurd h.1 (by decide)
  · exact absurd h.1 (by decide)
  · rw [clsJ_inj h.1, optStrJ_inj h.2.1, h.2.2.1, h.2.2.2]
  · exact absurd h.1 (by decide)
  · exact absurd h.1 (by decide)
  · exact absurd h.1 (by decide)
  · exact absurd h.1 (by decide)
  · rw [optStrJ_inj h.1, h.2]
  · exact absurd h.1 (by decide)
  · exact absurd h.1 (by decide)
  · exact absurd h.1 (by decide)
  · exact absurd h.1 (by decide)
  · rename_i tag1 a1 x1 tag2 a2 x2
    have ha : a1 = a2 := Subtype.ext (attrsToJObj_inj h.1)
    rw [h.2.1, h.2.2, ha]

theorem jsonOfElems_inj : ∀ {l1 l2 : List CdElem}, jsonOfElems l1 = jsonOfElems l2 →
    l1 = l2 := by
  intro l1
  induction l1 with
  | nil => intro l2 h; cases l2 with
    | nil => rfl
    | cons e t => simp [jsonOfElems] at h
  | cons e t ih =>
    intro l2 h
    cases l2 with
    | nil => simp [jsonOfElems] at h
    | cons e2 t2 =>
      simp only [jsonOfElems, JArr.cons.injEq] at h
      rw [jsonOfElem_inj h.1, ih h.2]

/-- The canonical countdown hash is injective: distinct element lists always
serialize differently. -/
theorem cdHash_inj {l1 l2 : List CdElem} (h : cdHash l1 = cdHash l2) : l1 = l2 := by
  have := jdump_inj h
  simp only [JVal.jarr.injEq] at this
  exact jsonOfElems_inj this

/-! ## The standalone countdown monitor's loop (countdown_monitor.py) -/

/-- The two alert variants of the monitor loop: the "NEW COUNTDOWN DETECTED"
SMS and the "countdown has ended" SMS. -/
inductive CdAlert : Type where
  | newCountdown (count : Nat) : CdAlert
  | ended : CdAlert
  deriving DecidableEq

/-- The persisted countdown state: the empty document `{}`, or the document
`{'hash': …, 'timestamp': …, 'count': …}` the monitor writes. -/
inductive CdState : Type where
  | empty : CdState
  | stored (hash : Str) (timestamp : Str) (count : Nat) : CdState
  deriving DecidableEq

/-- `self.previous_countdowns.get('hash')`. -/
def getHash : CdState → Option Str
  | .empty => none
  | .stored h _ _ => some h

/-- Python truthiness of `self.previous_countdowns.get('hash')`
(`None` and the empty string are falsy). -/
def hashTruthy : CdState → Bool
  | .empty => false
  | .stored h _ _ => !h.isEmpty

/-- One iteration of `TaylorSwiftCountdownMonitor.monitor`
(countdown_monitor.py lines 175-211): from the previous state, the current
time and the fetch outcome (`none` = `check_for_countdown` failed soft),
produce the new in-memory state, the alert sent (if any), and whether
`save_state` was called. -/
def monitorStep (prev : CdState) (now : Str) (fetch : Option (List CdElem)) :
    CdState × Option CdAlert × Bool :=
  match fetch with
  | none => (prev, none, false)
  | some countdowns =>
    if 0 < countdowns.length then
      if some (cdHash countdowns) ≠ getHash prev then
        (.stored (cdHash countdowns) now countdowns.length,
          some (.newCountdown countdowns.length), true)
      else (prev, none, false)
    else
      if hashTruthy prev then (.empty, some .ended, true)
      else (prev, none, false)

/-- The standalone countdown monitor does not re-alert on identical content:
whatever the starting state, after one iteration over an element list, a
second iteration over the same list sends no alert, performs no save, and
leaves the state unchanged.  (This is the behaviour claim C1 describes;
`countdown_monitor.py` satisfies it, the unified variant does not.) -/
theorem monitorStep_no_realert (prev : CdState) (now1 now2 : Str) (l : List CdElem) :
    monitorStep (monitorStep prev now1 (some l)).1 now2 (some l) =
      ((monitorStep prev now1 (some l)).1, none, false) := by
  by_cases hl : 0 < l.length
  · cases prev with
    | empty => simp [monitorStep, hl, getHash]
    | stored h0 t0 c0 =>
      by_cases hh : cdHash l = h0
      · simp [monitorStep, hl, getHash, hh]
      · simp [monitorStep, hl, getHash, hh]
  · cases prev with
    | empty => simp [monitorStep, hl, hashTruthy]
    | stored h0 t0 c0 =>
      by_cases ht : h0.isEmpty
      · simp [monitorStep, hl, hashTruthy, ht]
      · simp [monitorStep, hl, hashTruthy, ht]

/-- The ended branch of the standalone monitor (the behaviour claim C5
describes): with a truthy stored hash and an empty fetch the distinct
"ended" alert is sent, the state is reset to the empty document and saved;
with no truthy hash, an empty fetch alerts nothing and changes nothing. -/
theorem monitorStep_ended (prev : CdState) (now : Str) :
    (hashTruthy prev = true →
      monitorStep prev now (some []) = (.empty, some .ended, true)) ∧
    (hashTruthy prev = false →
      monitorStep prev now (some []) = (prev, none, false)) := by
  constructor <;> intro h <;> simp [monitorStep, h]

/-! ## The parsed page (HTML parsing itself is the library's concern)

The spec scopes out HTML parsing mechanics; the parsed document is modelled
as the data `BeautifulSoup`'s `find_all` calls traverse: the element nodes,
the text nodes, and the script tags, each in document order. -/

structure HtmlNode : Type where
  tag : Str
  classes : Option (List Str)
  idAttr : Option Str
  attrs : AttrMap
  textContent : Str
  deriving DecidableEq

structure HtmlText : Type where
  content : Str
  parentTag : Option Str
  deriving DecidableEq

structure HtmlScript : Type where
  scriptString : Option Str
  deriving DecidableEq

structure HtmlDoc : Type where
  nodes : List HtmlNode
  texts : List HtmlText
  scripts : List HtmlScript
  deriving DecidableEq

/-- Lower-case a string (`str.lower()` / `re.I`, for the ASCII patterns used). -/
def lowerStr (s : Str) : Str := s.map Char.toLower

/-- Does the needle occur at the start of the haystack? -/
def matchesAt : Str → Str → Bool
  | [], _ => true
  | _ :: _, [] => false
  | c :: cs, d :: ds => c = d && matchesAt cs ds

/-- Substring search (`re.search` of a literal pattern / Python `in`). -/
def containsSub (needle : Str) : Str → Bool
  | [] => needle.isEmpty
  | c :: cs => matchesAt needle (c :: cs) || containsSub needle cs

/-- Case-insensitive containment of a lower-case literal. -/
def hasCI (s : Str) (needle : String) : Bool := containsSub (S needle) (lowerStr s)

/-- `re.compile(r'countdown|timer|clock', re.I)` on one string. -/
def reClock (s : Str) : Bool := hasCI s "countdown" || hasCI s "timer" || hasCI s "clock"

/-- Strategy 1a: `find_all(class_=…)` — some class of the node matches. -/
def classHit (n : HtmlNode) : Bool :=
  match n.classes with
  | none => false
  | some cs => cs.any reClock

/-- Strategy 1b: `find_all(id=…)`. -/
def idHit (n : HtmlNode) : Bool :=
  match n.idAttr with
  | none => false
  | some i => reClock i

/-- Strategy 2: `re.compile(r'countdown|coming soon|launching|drops in', re.I)`. -/
def reText (s : Str) : Bool :=
  hasCI s "countdown" || hasCI s "coming soon" || hasCI s "launching" || hasCI s "drops in"

/-- Strategy 3: `find_all(attrs={k: True})` — the node has attribute `k`. -/
def hasAttrKey (k : String) (n : HtmlNode) : Bool :=
  n.attrs.1.any (fun p => p.1 == S k)

/-- Strategy 4 keyword test:
`any(term in script.string.lower() for term in [...])`. -/
def scriptTermHit (s : Str) : Bool :=
  hasCI s "countdown" || hasCI s "timer" || hasCI s "setinterval" || hasCI s "launch"

/-- One window of `\d{4}-\d{2}-\d{2}`. -/
def dateAt : Str → Bool
  | a :: b :: c :: d :: '-' :: e :: f :: '-' :: g :: h :: _ =>
    a.isDigit && b.isDigit && c.isDigit && d.isDigit &&
    e.isDigit && f.isDigit && g.isDigit && h.isDigit
  | _ => false

/-- One window of `\d{2}:\d{2}:\d{2}`. -/
def timeAt : Str → Bool
  | a :: b :: ':' :: c :: d :: ':' :: e :: f :: _ =>
    a.isDigit && b.isDigit && c.isDigit && d.isDigit && e.isDigit && f.isDigit
  | _ => false

/-- `re.search(r'\d{4}-\d{2}-\d{2}|\d{2}:\d{2}:\d{2}', s)`. -/
def dateTimeSearch : Str → Bool
  | [] => false
  | c :: cs => dateAt (c :: cs) || timeAt (c :: cs) || dateTimeSearch cs

/-- Strategy 4 on one script tag (countdown_monitor.py lines 122-128):
a hit requires `script.string` to exist, contain a keyword, and contain a
date or time literal; the record keeps the first 500 characters. -/
def scriptHit (sc : HtmlScript) : Option CdElem :=
  match sc.scriptString with
  | none => none
  | some s =>
    if scriptTermHit (lowerStr s) && dateTimeSearch s then some (.script (s.take 500))
    else none

/-- The key filter of the data_attribute record (line 152):
`'countdown' in k.lower() or 'timer' in k.lower() or 'launch' in k.lower()`. -/
def attrKeyKw (k : Str) : Bool := hasCI k "countdown" || hasCI k "timer" || hasCI k "launch"

/-- Filtering an attribute dict preserves its canonical sortedness. -/
def filterAttrs (a : AttrMap) : AttrMap :=
  ⟨a.1.filter (fun p => attrKeyKw p.1), a.2.filter _⟩

/-- `TaylorSwiftCountdownMonitor.check_for_countdown` (countdown_monitor.py
lines 106-156), success path, over a parsed document: scripts hits are
appended first (the script loop runs before the element/text/data
processing loops), then the class/id matches, the text matches, and the
data-attribute matches — concatenated without any deduplication. -/
def check_for_countdown (doc : HtmlDoc) : List CdElem :=
  let countdown_elements := doc.nodes.filter classHit ++ doc.nodes.filter idHit
  let countdown_text := doc.texts.filter (fun t => reText t.content)
  let countdown_data := doc.nodes.filter (hasAttrKey "data-countdown") ++
    doc.nodes.filter (hasAttrKey "data-timer") ++
    doc.nodes.filter (hasAttrKey "data-launch-date")
  (doc.scripts.filterMap scriptHit) ++
  countdown_elements.map (fun n =>
    CdElem.elementClass n.tag n.classes n.idAttr (n.textContent.take 200)) ++
  countdown_text.map (fun t => CdElem.textMatch (t.content.take 200) t.parentTag) ++
  countdown_data.map (fun n =>
    CdElem.dataAttribute n.tag (filterAttrs n.attrs) (n.textContent.take 200))

/-! ## The unified system's countdown monitor (unified_monitor.py) -/

/-- One entry of the `countdowns` list unified check builds:
`{'type': …, 'text': …}`. -/
structure UCdRecord : Type where
  type : Str
  text : Str
  deriving DecidableEq

/-- The dict unified check returns: `{'countdowns': …, 'count': …}`. -/
structure UCdResult : Type where
  countdowns : List UCdRecord
  count : Nat
  deriving DecidableEq

/-- `TaylorSwiftCountdownMonitor.check` of unified_monitor.py
(lines 86-124): on any successful fetch it returns the result dict
unconditionally — it reads no stored state.  Only the class/id and text
heuristics feed the result; the data-attribute hits are collected into
`countdown_data` and never appended (dead code in the source), and script
tags are not examined at all. -/
def uCheckTS (fetch : Option HtmlDoc) : Option UCdResult :=
  match fetch with
  | none => none
  | some doc =>
    let countdown_elements := doc.nodes.filter classHit ++ doc.nodes.filter idHit
    let countdown_text := doc.texts.filter (fun t => reText t.content)
    let _countdown_data := doc.nodes.filter (hasAttrKey "data-countdown") ++
      doc.nodes.filter (hasAttrKey "data-timer")
    let countdowns_found :=
      countdown_elements.map (fun n => UCdRecord.mk (S "element") (n.textContent.take 200))
      ++ countdown_text.map (fun t => UCdRecord.mk (S "text") (t.content.take 200))
    some ⟨countdowns_found, countdowns_found.length⟩

/-- The run loop (lines 419-432) alerts iff `check()` returned a truthy
value; the returned dict always has two keys and is therefore always
truthy, so the alert condition is exactly `isSome`. -/
def uResultTruthy : Option UCdResult → Bool
  | some _ => true
  | none => false

/-- Whether each of two consecutive run-loop iterations of the unified
countdown monitor sends an alert, given each cycle's fetch outcome.  The
check consults no state, so the two cycles are independent. -/
def uTwoCycles (fetch1 fetch2 : Option HtmlDoc) : Bool × Bool :=
  (uResultTruthy (uCheckTS fetch1), uResultTruthy (uCheckTS fetch2))

/-- Efficient newline join (`"\n".join(...)`). -/
def joinNl : List Str → Str
  | [] => []
  | [s] => s
  | s :: s2 :: t => s ++ '\n' :: joinNl (s2 :: t)

/-- `TaylorSwiftCountdownMonitor.format_alert` of unified_monitor.py
(lines 126-138). -/
def uFormatTS (data : UCdResult) : Str :=
  let base := S "🚨 NEW Taylor Swift countdown!\n\n" ++
    S "Found " ++ natChars data.count ++ S " countdown(s) on store.taylorswift.com\n\n"
  let preview_texts := (data.countdowns.take 2).filterMap
    (fun cd => if cd.text.isEmpty then none else some (cd.text.take 100))
  if data.countdowns.isEmpty then base
  else if preview_texts.isEmpty then base
  else base ++ S "Preview:\n" ++ joinNl preview_texts

/-! ## The state store (load_state / save_state)

`MonitorBase.load_state` / `save_state` (unified_monitor.py lines 54-69)
and the identical pair in countdown_monitor.py (lines 74-89).  The state
file is modelled by its content (`none` = the file does not exist). -/

/-- `load_state`: missing file ⇒ `{}`; unparsable content ⇒ `{}` (the bare
`except` swallows the error); otherwise the parsed document. -/
def loadState (file : Option Str) : JVal :=
  match file with
  | none => .jobj .nil
  | some content =>
    match jloads content with
    | some v => v
    | none => .jobj .nil

/-- `save_state(state)` writes `json.dumps(state, indent=2)`. -/
def saveStateContent (state : JVal) : Str := jdump state (some 2) 0

/-- C7: for every JSON document, `save_state` followed by `load_state` in a
fresh instance returns an equal document; `load_state` returns the empty
document when the state file does not exist or its contents cannot be
parsed — corruption is swallowed, never raised. -/
theorem C7_save_load_roundtrip :
    (∀ state : JVal, loadState (some (saveStateContent state)) = state) ∧
    loadState none = .jobj .nil ∧
    (∀ s : Str, jloads s = none → loadState (some s) = .jobj .nil) := by
  refine ⟨?_, rfl, ?_⟩
  · intro state
    simp [loadState, saveStateContent, jloads_jdump]
  · intro s h
    simp [loadState, h]

/-- Witness for C7 at a concrete state document and a concrete corrupt file. -/
theorem C7_save_load_roundtrip_witness :
    loadState (some (saveStateContent (JVal.jobj (.cons (S "hash")
      (.jstr (S "abc")) (.cons (S "count") (.jint 2) .nil))))) =
      JVal.jobj (.cons (S "hash") (.jstr (S "abc"))
        (.cons (S "count") (.jint 2) .nil)) ∧
    loadState none = JVal.jobj .nil ∧
    loadState (some (S "not json")) = JVal.jobj .nil :=
  ⟨C7_save_load_roundtrip.1 _, C7_save_load_roundtrip.2.1,
    C7_save_load_roundtrip.2.2 (S "not json") (by decide)⟩

/-- C8: two countdown check results holding the same elements in different
orders always produce different stored hashes — the canonical key-sorted
serialization of the whole list is order-sensitive (indeed injective). -/
theorem C8_reorder_changes_hash (l1 l2 : List CdElem) (hperm : l1.Perm l2)
    (hne : l1 ≠ l2) : cdHash l1 ≠ cdHash l2 :=
  fun h => hne (cdHash_inj h)

/-- Witness for C8 at a concrete two-element list and its reversal. -/
theorem C8_reorder_changes_hash_witness :
    [CdElem.script (S "a"), CdElem.textMatch (S "b") none].Perm
      [CdElem.textMatch (S "b") none, CdElem.script (S "a")] ∧
    [CdElem.script (S "a"), CdElem.textMatch (S "b") none] ≠
      [CdElem.textMatch (S "b") none, CdElem.script (S "a")] ∧
    cdHash [CdElem.script (S "a"), CdElem.textMatch (S "b") none] ≠
      cdHash [CdElem.textMatch (S "b") none, CdElem.script (S "a")] :=
  ⟨by decide, by decide,
    C8_reorder_changes_hash _ _ (by decide) (by decide)⟩

/-! ## Concrete documents exhibiting the unified countdown monitor's bugs -/

/-- The attribute dict of the demonstration node with a countdown class. -/
def demoClassAttrs : AttrMap :=
  ⟨[(S "class", AttrVal.vList [S "countdown-timer"])], by simp⟩

/-- The attribute dict of the demonstration node with a marker attribute. -/
def demoDataAttrs : AttrMap :=
  ⟨[(S "data-countdown", AttrVal.vStr (S "true"))], by simp⟩

/-- A page with one element whose class matches the countdown regex. -/
def pageWithCountdown : HtmlDoc :=
  ⟨[⟨S "div", some [S "countdown-timer"], none, demoClassAttrs, S "Countdown"⟩], [], []⟩

/-- A page whose only countdown signals are a `data-countdown` attribute and
an inline script with a keyword and a date literal. -/
def pageDataAndScript : HtmlDoc :=
  ⟨[⟨S "div", none, none, demoDataAttrs, S "3 days left"⟩], [],
    [⟨some (S "countdown to 2025-10-03")⟩]⟩

/-- A page with no countdown signals at all. -/
def pageEmpty : HtmlDoc := ⟨[], [], []⟩

/-- C1 (the unified code violates the claim): two consecutive run-loop
cycles whose fetches yield identical element lists both alert — the second
check alerts again, because unified `check` never consults the stored
state (its input is only the fetch) and `run` alerts whenever the returned
dict is truthy, which it always is. -/
theorem C1_unified_realerts_on_identical_fetches :
    uTwoCycles (some pageWithCountdown) (some pageWithCountdown) = (true, true) ∧
    uCheckTS (some pageWithCountdown) =
      some ⟨[⟨S "element", S "Countdown"⟩], 1⟩ := by
  constructor
  · rfl
  · rfl

/-- C2 (the unified code violates the claim): on a page whose only
countdown signals are a marker attribute and an inline script, the
standalone `check_for_countdown` (which the claim describes) returns both
hits, while the unified `check` applies only the class/id and text
heuristics — it drops the collected data-attribute hits and never examines
scripts — and returns no hits. -/
theorem C2_unified_applies_two_heuristics :
    check_for_countdown pageDataAndScript =
      [CdElem.script (S "countdown to 2025-10-03"),
       CdElem.dataAttribute (S "div")
         demoDataAttrs (S "3 days left")] ∧
    uCheckTS (some pageDataAndScript) = some ⟨[], 0⟩ := by
  constructor
  · rfl
  · rfl

/-- C5 (the unified code violates the claim): a successful fetch with zero
detected elements still yields the truthy result `{'countdowns': [], 'count': 0}`,
so the run loop alerts on every such cycle — no "countdown ended" variant
exists in the unified monitor, the alert text is the "NEW countdown" one
announcing 0 countdowns, and no state is reset. -/
theorem C5_unified_alerts_on_empty_fetch :
    uCheckTS (some pageEmpty) = some ⟨[], 0⟩ ∧
    uTwoCycles (some pageEmpty) (some pageEmpty) = (true, true) ∧
    uFormatTS ⟨[], 0⟩ =
      S "🚨 NEW Taylor Swift countdown!\n\nFound 0 countdown(s) on store.taylorswift.com\n\n" := by
  refine ⟨rfl, rfl, ?_⟩
  decide

/-! ## The event-list monitors (unified_monitor.py, Bandsintown and Ticketmaster)

`BandsintownMonitor.check` (lines 149-200) and `TicketmasterMonitor.check`
(lines 229-286) share one loop skeleton: for each artist, when the response
status is 200 the fetched events are compared by id against the stored
`event_ids` of that artist, the in-memory `previous_state` entry for the
artist is overwritten with the freshly seen ids and a `datetime.now()`
timestamp, and at the end state is saved and the aggregate returned only
when `all_new_events` is truthy (non-empty). A run is modeled by the list
of per-artist fetch outcomes `(artist, events if status 200 else none,
timestamp of the now() call)`. -/

/-- The per-artist entry of `previous_state`: the two keys the code writes
(lines 185-188 and 271-274). An id is `none` when the event dict lacks the
`id` key, since `event.get` then yields `None`. -/
structure ArtistState : Type where
  event_ids : List (Option Str)
  last_check : Str
deriving DecidableEq

/-- The in-memory `previous_state` dict, artist name to entry. -/
abbrev StateMap := List (Str × ArtistState)

/-- Python dict lookup `m.get(k)`. -/
def dictGet (m : StateMap) (k : Str) : Option ArtistState :=
  match m with
  | [] => none
  | (k2, v) :: rest => if k2 = k then some v else dictGet rest k

/-- Python dict assignment: an existing key keeps its position, a fresh key
is appended. -/
def dictSet (m : StateMap) (k : Str) (v : ArtistState) : StateMap :=
  match m with
  | [] => [(k, v)]
  | (k2, v2) :: rest => if k2 = k then (k, v) :: rest else (k2, v2) :: dictSet rest k v

/-- The stored id set an artist is checked against (lines 163-164 and
247-248): the `event_ids` of its state entry, empty when absent. -/
def prevIdsOf (mem : StateMap) (artist : Str) : List (Option Str) :=
  ((dictGet mem artist).map ArtistState.event_ids).getD []

/-- A Bandsintown feed event; `none` marks an absent key, every field is
read through `.get` with a default (lines 170-180). -/
structure BtEvent : Type where
  eid : Option Str
  venueName : Option Str
  venueLocation : Option Str
  dtime : Option Str
  eurl : Option Str
deriving DecidableEq

/-- One entry of the Bandsintown `new_events` list (lines 174-180). -/
structure BtRec : Type where
  artist : Str
  venue : Str
  location : Str
  dtime : Str
  eurl : Str
deriving DecidableEq

/-- The dict appended to `new_events` for a fresh event (lines 174-180). -/
def btRecord (artist : Str) (e : BtEvent) : BtRec :=
  ⟨artist, e.venueName.getD (S "Unknown"), e.venueLocation.getD (S "Unknown"),
    e.dtime.getD (S "Unknown"), e.eurl.getD (S "")⟩

/-- The inner `for event in events` loop of `BandsintownMonitor.check`
(lines 169-180), producing `(new_events, current_event_ids)`. -/
def btLoopEvents (prevIds : List (Option Str)) (artist : Str) :
    List BtEvent → List BtRec × List (Option Str)
  | [] => ([], [])
  | e :: es =>
    let rest := btLoopEvents prevIds artist es
    ((if e.eid ∈ prevIds then [] else [btRecord artist e]) ++ rest.1, e.eid :: rest.2)

/-- A venue dict of a Ticketmaster event; the composite `.get` chains for
city name and state code are modeled by their optional results
(lines 262-263). -/
structure TmVenue : Type where
  vname : Option Str
  cityName : Option Str
  stateCode : Option Str
deriving DecidableEq

/-- A Ticketmaster feed event. `venues` is `none` when the `_embedded`
chain is absent, in which case the code falls back to a list holding one
empty dict (line 258). -/
structure TmEvent : Type where
  eid : Option Str
  ename : Option Str
  venues : Option (List TmVenue)
  localDate : Option Str
  eurl : Option Str
deriving DecidableEq

/-- One entry of the Ticketmaster `new_events` list (lines 259-266). -/
structure TmRec : Type where
  artist : Str
  ename : Str
  venue : Str
  location : Str
  date : Str
  eurl : Str
deriving DecidableEq

/-- Line 258: the fallback path yields an all-defaults venue, a present but
empty venue list raises IndexError, otherwise the first venue is taken. -/
def tmVenue0 : Option (List TmVenue) → Except Unit TmVenue
  | none => .ok ⟨none, none, none⟩
  | some [] => .error ()
  | some (v :: _) => .ok v

/-- The dict appended to the Ticketmaster `new_events` (lines 259-266). -/
def tmRecord (artist : Str) (e : TmEvent) (v : TmVenue) : TmRec :=
  ⟨artist, e.ename.getD (S "Unknown Event"), v.vname.getD (S "Unknown"),
    v.cityName.getD (S "") ++ S ", " ++ v.stateCode.getD (S ""),
    e.localDate.getD (S "Unknown"), e.eurl.getD (S "")⟩

/-- The inner event loop of `TicketmasterMonitor.check` (lines 253-266):
the venue lookup runs only for events whose id is new, and an empty venue
list propagates IndexError out of the loop. -/
def tmLoopEvents (prevIds : List (Option Str)) (artist : Str) :
    List TmEvent → Except Unit (List TmRec × List (Option Str))
  | [] => .ok ([], [])
  | e :: es =>
    if e.eid ∈ prevIds then
      match tmLoopEvents prevIds artist es with
      | .error u => .error u
      | .ok rest => .ok (rest.1, e.eid :: rest.2)
    else
      match tmVenue0 e.venues with
      | .error u => .error u
      | .ok v =>
        match tmLoopEvents prevIds artist es with
        | .error u => .error u
        | .ok rest => .ok (tmRecord artist e v :: rest.1, e.eid :: rest.2)

/-- The outcome of one `check` call: the returned value (`none` models the
Python `return None`), the final in-memory `previous_state`, and the
argument of the `save_state` call when one was made. -/
structure CheckOut (R : Type) : Type where
  result : Option (List R × Nat)
  mem : StateMap
  saved : Option StateMap
deriving DecidableEq

/-- The `for artist in self.artists` loop shared by both event monitors
(lines 154-190 and 234-276): a non-200 artist is skipped entirely, a 200
artist has its events folded by `proc` against its stored id set and its
state entry overwritten; an exception from `proc` aborts the loop carrying
the state as mutated so far. -/
def feedLoop {E R : Type}
    (proc : List (Option Str) → Str → List E → Except Unit (List R × List (Option Str)))
    (mem : StateMap) :
    List (Str × Option (List E) × Str) → Except StateMap (List R × StateMap)
  | [] => .ok ([], mem)
  | (_, none, _) :: rest => feedLoop proc mem rest
  | (artist, some events, now) :: rest =>
    match proc (prevIdsOf mem artist) artist events with
    | .error _ => .error mem
    | .ok (newEv, curIds) =>
      match feedLoop proc (dictSet mem artist ⟨curIds, now⟩) rest with
      | .error m => .error m
      | .ok (restNew, memF) => .ok (newEv ++ restNew, memF)

/-- The tail of `check` (lines 192-196 and 278-282): save state and return
the aggregate dict only when `all_new_events` is truthy; an exception was
caught by the outer try block, which logs and returns None (lines
198-200 and 284-286). -/
def feedCheck {E R : Type} [DecidableEq R]
    (proc : List (Option Str) → Str → List E → Except Unit (List R × List (Option Str)))
    (mem : StateMap)
    (fetches : List (Str × Option (List E) × Str)) : CheckOut R :=
  match feedLoop proc mem fetches with
  | .error m => ⟨none, m, none⟩
  | .ok (allNew, mem2) =>
    if allNew = [] then ⟨none, mem2, none⟩
    else ⟨some (allNew, allNew.length), mem2, some mem2⟩

/-- The Bandsintown per-artist body never raises. -/
def btProc (ids : List (Option Str)) (a : Str) (evs : List BtEvent) :
    Except Unit (List BtRec × List (Option Str)) :=
  .ok (btLoopEvents ids a evs)

/-- `BandsintownMonitor.check` over a list of per-artist fetch outcomes. -/
def btCheck (mem : StateMap) (fetches : List (Str × Option (List BtEvent) × Str)) :
    CheckOut BtRec :=
  feedCheck btProc mem fetches

/-- `TicketmasterMonitor.check` over a list of per-artist fetch outcomes. -/
def tmCheck (mem : StateMap) (fetches : List (Str × Option (List TmEvent) × Str)) :
    CheckOut TmRec :=
  feedCheck tmLoopEvents mem fetches

/-- The new-events list carried by a check result, empty for None. -/
def resultNew {R : Type} (o : CheckOut R) : List R :=
  match o.result with
  | none => []
  | some (l, _) => l

/-! ### Specification-side characterizations -/

/-- What the spec prescribes for one 200 artist: the records of exactly
those events whose id is not in the stored id set, in feed order. -/
def btNewSpec (ids : List (Option Str)) (a : Str) (evs : List BtEvent) : List BtRec :=
  (evs.filter (fun e => decide (e.eid ∉ ids))).map (btRecord a)

/-- Total version of the venue selection, defined on feeds that raise no
IndexError. -/
def tmVenueD : Option (List TmVenue) → TmVenue
  | none => ⟨none, none, none⟩
  | some [] => ⟨none, none, none⟩
  | some (v :: _) => v

/-- What the spec prescribes for one 200 Ticketmaster artist. -/
def tmNewSpec (ids : List (Option Str)) (a : Str) (evs : List TmEvent) : List TmRec :=
  (evs.filter (fun e => decide (e.eid ∉ ids))).map
    (fun e => tmRecord a e (tmVenueD e.venues))

/-- The id list a 200 artist stores. -/
def idsOfBt (evs : List BtEvent) : List (Option Str) := evs.map BtEvent.eid

/-- The id list a 200 Ticketmaster artist stores. -/
def idsOfTm (evs : List TmEvent) : List (Option Str) := evs.map TmEvent.eid

/-- The aggregate `all_new_events` the spec prescribes, with every stored
id set read from the initial state. -/
def runSpec {E R : Type} (newFn : List (Option Str) → Str → List E → List R)
    (mem : StateMap) : List (Str × Option (List E) × Str) → List R
  | [] => []
  | (_, none, _) :: rest => runSpec newFn mem rest
  | (a, some evs, _) :: rest => newFn (prevIdsOf mem a) a evs ++ runSpec newFn mem rest

/-- A Ticketmaster event on which line 258 cannot raise. -/
def tmEventOk (e : TmEvent) : Bool := decide (e.venues ≠ some [])

/-- A fetch outcome whose events raise no IndexError. -/
def tmFetchOk (t : Str × Option (List TmEvent) × Str) : Bool :=
  match t.2.1 with
  | none => true
  | some evs => evs.all tmEventOk

/-- A whole run in which line 258 never raises. -/
def tmFetchesOk (fetches : List (Str × Option (List TmEvent) × Str)) : Bool :=
  fetches.all tmFetchOk

theorem dictGet_set_self (m : StateMap) (k : Str) (v : ArtistState) :
    dictGet (dictSet m k v) k = some v := by
  induction m with
  | nil => simp [dictGet, dictSet]
  | cons p rest ih =>
    obtain ⟨k2, v2⟩ := p
    by_cases h : k2 = k
    · simp [dictGet, dictSet, h]
    · simp [dictGet, dictSet, h, ih]

theorem dictGet_set_ne (m : StateMap) (k k2 : Str) (v : ArtistState) (h : k ≠ k2) :
    dictGet (dictSet m k v) k2 = dictGet m k2 := by
  induction m with
  | nil => simp [dictGet, dictSet, h]
  | cons p rest ih =>
    obtain ⟨k3, v3⟩ := p
    by_cases h3 : k3 = k
    · subst h3
      simp [dictGet, dictSet, h]
    · simp only [dictSet, if_neg h3]
      by_cases h4 : k3 = k2 <;> simp [dictGet, h4, ih]

theorem prevIdsOf_set_ne (m : StateMap) (k k2 : Str) (v : ArtistState) (h : k ≠ k2) :
    prevIdsOf (dictSet m k v) k2 = prevIdsOf m k2 := by
  simp [prevIdsOf, dictGet_set_ne m k k2 v h]

theorem btLoopEvents_spec (ids : List (Option Str)) (a : Str) :
    ∀ evs, btLoopEvents ids a evs = (btNewSpec ids a evs, idsOfBt evs) := by
  intro evs
  induction evs with
  | nil => simp [btLoopEvents, btNewSpec, idsOfBt]
  | cons e es ih =>
    by_cases h : e.eid ∈ ids <;>
      simp [btLoopEvents, btNewSpec, idsOfBt, h, ih, List.filter_cons]

theorem btProc_spec (ids : List (Option Str)) (a : Str) (evs : List BtEvent) :
    btProc ids a evs = .ok (btNewSpec ids a evs, idsOfBt evs) := by
  simp [btProc, btLoopEvents_spec]

theorem tmLoopEvents_ok (ids : List (Option Str)) (a : Str) :
    ∀ evs : List TmEvent, (∀ e ∈ evs, e.venues ≠ some []) →
      tmLoopEvents ids a evs = .ok (tmNewSpec ids a evs, idsOfTm evs) := by
  intro evs
  induction evs with
  | nil => intro hv; simp [tmLoopEvents, tmNewSpec, idsOfTm]
  | cons e es ih =>
    intro hv
    have hv0 : e.venues ≠ some [] := hv e (by simp)
    have hrest := ih (fun e2 he2 => hv e2 (by simp [he2]))
    by_cases h : e.eid ∈ ids
    · simp [tmLoopEvents, h, hrest, tmNewSpec, idsOfTm, List.filter_cons]
    · have hV : tmVenue0 e.venues = .ok (tmVenueD e.venues) := by
        cases hvv : e.venues with
        | none => simp [tmVenue0, tmVenueD]
        | some l =>
          cases l with
          | nil => exact absurd hvv hv0
          | cons v t => simp [tmVenue0, tmVenueD]
      simp [tmLoopEvents, h, hV, hrest, tmNewSpec, idsOfTm, List.filter_cons]

theorem tmFetchesOk_proc {fetches : List (Str × Option (List TmEvent) × Str)}
    (h : tmFetchesOk fetches = true) :
    ∀ a evs now, (a, some evs, now) ∈ fetches → ∀ ids,
      tmLoopEvents ids a evs = .ok (tmNewSpec ids a evs, idsOfTm evs) := by
  intro a evs now hm ids
  apply tmLoopEvents_ok
  intro e he
  have h1 : tmFetchOk (a, some evs, now) = true :=
    List.all_eq_true.mp h _ hm
  simp only [tmFetchOk] at h1
  have h2 : tmEventOk e = true := List.all_eq_true.mp h1 e he
  simpa [tmEventOk] using h2

theorem runSpec_set_notin {E R : Type}
    (newFn : List (Option Str) → Str → List E → List R)
    (mem : StateMap) (a : Str) (v : ArtistState) :
    ∀ rest : List (Str × Option (List E) × Str), a ∉ rest.map (fun t => t.1) →
      runSpec newFn (dictSet mem a v) rest = runSpec newFn mem rest := by
  intro rest
  induction rest with
  | nil => intro _; rfl
  | cons t rest ih =>
    intro hna
    obtain ⟨b, ob, tb⟩ := t
    simp only [List.map_cons, List.mem_cons, not_or] at hna
    cases ob with
    | none =>
      simp only [runSpec]
      exact ih hna.2
    | some evs =>
      simp only [runSpec]
      rw [prevIdsOf_set_ne mem a b v hna.1, ih hna.2]

theorem feedLoop_spec {E R : Type}
    (proc : List (Option Str) → Str → List E → Except Unit (List R × List (Option Str)))
    (newFn : List (Option Str) → Str → List E → List R)
    (idsFn : List E → List (Option Str)) :
    ∀ (fetches : List (Str × Option (List E) × Str)) (mem : StateMap),
    (∀ a evs now, (a, some evs, now) ∈ fetches → ∀ ids,
        proc ids a evs = .ok (newFn ids a evs, idsFn evs)) →
    (fetches.map (fun t => t.1)).Nodup →
    ∃ memF,
      feedLoop proc mem fetches = .ok (runSpec newFn mem fetches, memF) ∧
      (∀ b, b ∉ fetches.map (fun t => t.1) → dictGet memF b = dictGet mem b) ∧
      (∀ a evs now, (a, some evs, now) ∈ fetches →
        dictGet memF a = some ⟨idsFn evs, now⟩) := by
  intro fetches
  induction fetches with
  | nil =>
    intro mem hproc hnd
    exact ⟨mem, rfl, fun b _ => rfl, fun a evs now h => absurd h (List.not_mem_nil _)⟩
  | cons t rest ih =>
    intro mem hproc hnd
    obtain ⟨a, oa, ta⟩ := t
    simp only [List.map_cons, List.nodup_cons] at hnd
    obtain ⟨hna, hnd2⟩ := hnd
    cases oa with
    | none =>
      obtain ⟨memF, h1, h2, h3⟩ :=
        ih mem (fun a2 evs now hm ids => hproc a2 evs now (List.mem_cons_of_mem _ hm) ids) hnd2
      refine ⟨memF, ?_, ?_, ?_⟩
      · simp only [feedLoop, runSpec]
        exact h1
      · intro b hb
        simp only [List.map_cons, List.mem_cons, not_or] at hb
        exact h2 b hb.2
      · intro a2 evs now hm
        rcases List.mem_cons.mp hm with heq | hm2
        · exact absurd (congrArg (fun t => t.2.1) heq) (by simp)
        · exact h3 a2 evs now hm2
    | some evs =>
      have hp := hproc a evs ta (List.mem_cons_self _ _) (prevIdsOf mem a)
      obtain ⟨memF, h1, h2, h3⟩ :=
        ih (dictSet mem a ⟨idsFn evs, ta⟩)
          (fun a2 evs2 now hm ids => hproc a2 evs2 now (List.mem_cons_of_mem _ hm) ids) hnd2
      refine ⟨memF, ?_, ?_, ?_⟩
      · simp only [feedLoop, runSpec, hp, h1]
        rw [runSpec_set_notin newFn mem a ⟨idsFn evs, ta⟩ rest hna]
      · intro b hb
        simp only [List.map_cons, List.mem_cons, not_or] at hb
        rw [h2 b hb.2, dictGet_set_ne mem a b _ (fun hc => hb.1 hc.symm)]
      · intro a2 evs2 now hm
        rcases List.mem_cons.mp hm with heq | hm2
        · simp only [Prod.mk.injEq, Option.some.injEq] at heq
          obtain ⟨ha2, hevs, hnow⟩ := heq
          rw [ha2, hevs, hnow, h2 a hna, dictGet_set_self]
        · exact h3 a2 evs2 now hm2

theorem feedLoop_skip {E R : Type}
    (proc : List (Option Str) → Str → List E → Except Unit (List R × List (Option Str)))
    (a : Str) (t : Str) (ys : List (Str × Option (List E) × Str)) :
    ∀ (xs : List (Str × Option (List E) × Str)) (mem : StateMap),
      feedLoop proc mem (xs ++ (a, none, t) :: ys) = feedLoop proc mem (xs ++ ys) := by
  intro xs
  induction xs with
  | nil =>
    intro mem
    simp only [List.nil_append, feedLoop]
  | cons x xs ih =>
    intro mem
    obtain ⟨b, ob, tb⟩ := x
    cases ob with
    | none =>
      simp only [List.cons_append, feedLoop]
      exact ih mem
    | some evs =>
      simp only [List.cons_append, feedLoop]
      rcases hp : proc (prevIdsOf mem b) b evs with u | ⟨newEv, curIds⟩ <;> simp only [hp]
      rw [List.append_eq, List.append_eq, ih]

/-- C3: for both event monitors, the state is persisted if and only if at
least one artist contributed a new event id — the check returns `none` and
makes no `save_state` call exactly when the per-artist new-event lists are
all empty, and otherwise returns the aggregate list plus its length and
saves the final in-memory state. The Ticketmaster side assumes a feed on
which the venue lookup of line 258 raises no IndexError. -/
theorem C3_persist_iff_new_events :
    (∀ (mem : StateMap) (fetches : List (Str × Option (List BtEvent) × Str)),
      (fetches.map (fun t => t.1)).Nodup →
      ((btCheck mem fetches).result = none ↔ runSpec btNewSpec mem fetches = []) ∧
      ((btCheck mem fetches).saved = none ↔ runSpec btNewSpec mem fetches = []) ∧
      (∀ l n, (btCheck mem fetches).result = some (l, n) →
        l = runSpec btNewSpec mem fetches ∧ l ≠ [] ∧ n = l.length ∧
        (btCheck mem fetches).saved = some (btCheck mem fetches).mem)) ∧
    (∀ (mem : StateMap) (fetches : List (Str × Option (List TmEvent) × Str)),
      tmFetchesOk fetches = true →
      (fetches.map (fun t => t.1)).Nodup →
      ((tmCheck mem fetches).result = none ↔ runSpec tmNewSpec mem fetches = []) ∧
      ((tmCheck mem fetches).saved = none ↔ runSpec tmNewSpec mem fetches = []) ∧
      (∀ l n, (tmCheck mem fetches).result = some (l, n) →
        l = runSpec tmNewSpec mem fetches ∧ l ≠ [] ∧ n = l.length ∧
        (tmCheck mem fetches).saved = some (tmCheck mem fetches).mem)) := by
  constructor
  · intro mem fetches hnd
    obtain ⟨memF, h1, h2, h3⟩ := feedLoop_spec btProc btNewSpec idsOfBt fetches mem
      (fun a evs now _ ids => btProc_spec ids a evs) hnd
    by_cases hz : runSpec btNewSpec mem fetches = [] <;>
      simp [btCheck, feedCheck, h1, hz]
  · intro mem fetches hok hnd
    obtain ⟨memF, h1, h2, h3⟩ := feedLoop_spec tmLoopEvents tmNewSpec idsOfTm fetches mem
      (tmFetchesOk_proc hok) hnd
    by_cases hz : runSpec tmNewSpec mem fetches = [] <;>
      simp [tmCheck, feedCheck, h1, hz]

/-- C4: the new_events list of both event monitors is exactly the ordered
concatenation, over the 200 artists, of the records of those events whose
id is not a member of that artist stored id set — so an event whose id is
in previous_ids is never reported, whatever its other fields hold, and
newness is pure id membership. Artist names are assumed pairwise distinct
(they are dict keys), and the Ticketmaster side assumes a feed on which
line 258 raises no IndexError. -/
theorem C4_previous_ids_never_in_new_events :
    (∀ (mem : StateMap) (fetches : List (Str × Option (List BtEvent) × Str)),
      (fetches.map (fun t => t.1)).Nodup →
      resultNew (btCheck mem fetches) = runSpec btNewSpec mem fetches) ∧
    (∀ (mem : StateMap) (fetches : List (Str × Option (List TmEvent) × Str)),
      tmFetchesOk fetches = true →
      (fetches.map (fun t => t.1)).Nodup →
      resultNew (tmCheck mem fetches) = runSpec tmNewSpec mem fetches) := by
  constructor
  · intro mem fetches hnd
    obtain ⟨memF, h1, h2, h3⟩ := feedLoop_spec btProc btNewSpec idsOfBt fetches mem
      (fun a evs now _ ids => btProc_spec ids a evs) hnd
    by_cases hz : runSpec btNewSpec mem fetches = [] <;>
      simp [btCheck, feedCheck, resultNew, h1, hz]
  · intro mem fetches hok hnd
    obtain ⟨memF, h1, h2, h3⟩ := feedLoop_spec tmLoopEvents tmNewSpec idsOfTm fetches mem
      (tmFetchesOk_proc hok) hnd
    by_cases hz : runSpec tmNewSpec mem fetches = [] <;>
      simp [tmCheck, feedCheck, resultNew, h1, hz]

/-- C9: an artist whose endpoint returns a non-200 status is skipped
silently by both event monitors — deleting that artist from the fetch list
changes nothing: the same result, the same final in-memory state and the
same persistence behaviour, so the artist contributes zero events, the
check does not fail, and every remaining artist is processed as before. -/
theorem C9_non200_artist_skipped :
    (∀ (mem : StateMap) (xs ys : List (Str × Option (List BtEvent) × Str)) (a t : Str),
      btCheck mem (xs ++ (a, none, t) :: ys) = btCheck mem (xs ++ ys)) ∧
    (∀ (mem : StateMap) (xs ys : List (Str × Option (List TmEvent) × Str)) (a t : Str),
      tmCheck mem (xs ++ (a, none, t) :: ys) = tmCheck mem (xs ++ ys)) := by
  constructor <;> intro mem xs ys a t <;>
    simp only [btCheck, tmCheck, feedCheck, feedLoop_skip]

/-- C10: when a check of either event monitor returns `none`, no
`save_state` call was made — yet the in-memory previous_state entry of
every 200 artist has been overwritten with the freshly fetched id list and
the timestamp of that fetch, so the refreshed id sets live only in memory. -/
theorem C10_memory_overwritten_disk_unchanged :
    (∀ (mem : StateMap) (fetches : List (Str × Option (List BtEvent) × Str)),
      (fetches.map (fun t => t.1)).Nodup →
      (btCheck mem fetches).result = none →
      (btCheck mem fetches).saved = none ∧
      ∀ a evs now, (a, some evs, now) ∈ fetches →
        dictGet (btCheck mem fetches).mem a = some ⟨idsOfBt evs, now⟩) ∧
    (∀ (mem : StateMap) (fetches : List (Str × Option (List TmEvent) × Str)),
      tmFetchesOk fetches = true →
      (fetches.map (fun t => t.1)).Nodup →
      (tmCheck mem fetches).result = none →
      (tmCheck mem fetches).saved = none ∧
      ∀ a evs now, (a, some evs, now) ∈ fetches →
        dictGet (tmCheck mem fetches).mem a = some ⟨idsOfTm evs, now⟩) := by
  constructor
  · intro mem fetches hnd hres
    obtain ⟨memF, h1, h2, h3⟩ := feedLoop_spec btProc btNewSpec idsOfBt fetches mem
      (fun a evs now _ ids => btProc_spec ids a evs) hnd
    by_cases hz : runSpec btNewSpec mem fetches = []
    · refine ⟨by simp [btCheck, feedCheck, h1, hz], ?_⟩
      intro a evs now hm
      have hmm : (btCheck mem fetches).mem = memF := by simp [btCheck, feedCheck, h1, hz]
      rw [hmm]
      exact h3 a evs now hm
    · exact absurd hres (by simp [btCheck, feedCheck, h1, hz])
  · intro mem fetches hok hnd hres
    obtain ⟨memF, h1, h2, h3⟩ := feedLoop_spec tmLoopEvents tmNewSpec idsOfTm fetches mem
      (tmFetchesOk_proc hok) hnd
    by_cases hz : runSpec tmNewSpec mem fetches = []
    · refine ⟨by simp [tmCheck, feedCheck, h1, hz], ?_⟩
      intro a evs now hm
      have hmm : (tmCheck mem fetches).mem = memF := by simp [tmCheck, feedCheck, h1, hz]
      rw [hmm]
      exact h3 a evs now hm
    · exact absurd hres (by simp [tmCheck, feedCheck, h1, hz])

/-! ### Concrete runs of the event monitors -/

/-- A stored state: one artist already known with one event id. -/
def wBtMem : StateMap := [(S "muse", ⟨[some (S "e1")], S "t0"⟩)]

/-- An event whose id is already stored. -/
def wBtEvent1 : BtEvent := ⟨some (S "e1"), some (S "Arena"), none, none, none⟩

/-- An event with a fresh id. -/
def wBtEvent2 : BtEvent := ⟨some (S "e2"), none, some (S "Paris"), none, none⟩

/-- A run: the known artist returns a known and a fresh event, a second
artist gets a non-200 status. -/
def wBtFetches : List (Str × Option (List BtEvent) × Str) :=
  [(S "muse", some [wBtEvent1, wBtEvent2], S "t1"), (S "kidka", none, S "t1")]

/-- A run whose only fetched event is already known. -/
def wBtFetchesOld : List (Str × Option (List BtEvent) × Str) :=
  [(S "muse", some [wBtEvent1], S "t1")]

/-- A stored Ticketmaster state. -/
def wTmMem : StateMap := [(S "muse", ⟨[some (S "e1")], S "t0"⟩)]

/-- A Ticketmaster event whose id is already stored. -/
def wTmEvent1 : TmEvent := ⟨some (S "e1"), none, none, none, none⟩

/-- A fresh Ticketmaster event with a venue. -/
def wTmEvent2 : TmEvent :=
  ⟨some (S "e2"), some (S "Gig"),
    some [⟨some (S "Bell"), some (S "Montreal"), some (S "QC")⟩],
    some (S "2025-01-01"), none⟩

/-- A Ticketmaster run with one known and one fresh event. -/
def wTmFetches : List (Str × Option (List TmEvent) × Str) :=
  [(S "muse", some [wTmEvent1, wTmEvent2], S "t1")]

/-- A Ticketmaster run whose only fetched event is already known. -/
def wTmFetchesOld : List (Str × Option (List TmEvent) × Str) :=
  [(S "muse", some [wTmEvent1], S "t1")]

theorem C3_persist_iff_new_events_witness :
    ((wBtFetches.map (fun t => t.1)).Nodup ∧
      ((btCheck wBtMem wBtFetches).result = none ↔
        runSpec btNewSpec wBtMem wBtFetches = [])) ∧
    (tmFetchesOk wTmFetches = true ∧ (wTmFetches.map (fun t => t.1)).Nodup ∧
      ((tmCheck wTmMem wTmFetches).result = none ↔
        runSpec tmNewSpec wTmMem wTmFetches = [])) :=
  ⟨⟨by decide, (C3_persist_iff_new_events.1 wBtMem wBtFetches (by decide)).1⟩,
   ⟨by decide, by decide,
    (C3_persist_iff_new_events.2 wTmMem wTmFetches (by decide) (by decide)).1⟩⟩

theorem C4_previous_ids_never_in_new_events_witness :
    ((wBtFetches.map (fun t => t.1)).Nodup ∧
      resultNew (btCheck wBtMem wBtFetches) = runSpec btNewSpec wBtMem wBtFetches) ∧
    (tmFetchesOk wTmFetches = true ∧ (wTmFetches.map (fun t => t.1)).Nodup ∧
      resultNew (tmCheck wTmMem wTmFetches) = runSpec tmNewSpec wTmMem wTmFetches) :=
  ⟨⟨by decide, C4_previous_ids_never_in_new_events.1 wBtMem wBtFetches (by decide)⟩,
   ⟨by decide, by decide,
    C4_previous_ids_never_in_new_events.2 wTmMem wTmFetches (by decide) (by decide)⟩⟩

theorem C10_memory_overwritten_disk_unchanged_witness :
    ((wBtFetchesOld.map (fun t => t.1)).Nodup ∧
      (btCheck wBtMem wBtFetchesOld).result = none ∧
      ((btCheck wBtMem wBtFetchesOld).saved = none ∧
       ∀ a evs now, (a, some evs, now) ∈ wBtFetchesOld →
         dictGet (btCheck wBtMem wBtFetchesOld).mem a = some ⟨idsOfBt evs, now⟩)) ∧
    (tmFetchesOk wTmFetchesOld = true ∧
      (wTmFetchesOld.map (fun t => t.1)).Nodup ∧
      (tmCheck wTmMem wTmFetchesOld).result = none ∧
      ((tmCheck wTmMem wTmFetchesOld).saved = none ∧
       ∀ a evs now, (a, some evs, now) ∈ wTmFetchesOld →
         dictGet (tmCheck wTmMem wTmFetchesOld).mem a = some ⟨idsOfTm evs, now⟩)) :=
  ⟨⟨by decide, by decide,
    C10_memory_overwritten_disk_unchanged.1 wBtMem wBtFetchesOld (by decide) (by decide)⟩,
   ⟨by decide, by decide, by decide,
    C10_memory_overwritten_disk_unchanged.2 wTmMem wTmFetchesOld (by decide) (by decide)
      (by decide)⟩⟩

/-! ## The run loop (unified_monitor.py lines 419-432) -/

/-- One configured monitor as the run loop sees it: the outcome of its
check call (a raised exception message or an optional data dict, the dict
abstracted to its formatter input), its alert formatter (which may itself
raise, e.g. a KeyError), and whether its SMS transport succeeds —
`send_sms` catches its own exceptions and returns False instead of
raising (lines 38-52). -/
structure UMonitor : Type where
  checkRes : Except Str (Option Str)
  fmtRes : Str → Except Str Str
  sendOk : Bool

/-- What one iteration of the loop body does to one monitor. -/
inductive MonEvent : Type where
  | alerted (msg : Str) (delivered : Bool) : MonEvent
  | noData : MonEvent
  | failed (err : Str) : MonEvent
deriving DecidableEq

/-- The try block of lines 420-430 for a single monitor: an exception from
check or format_alert is caught at line 431 and only logged; a truthy
result is formatted and sent, a falsy one logged as no new data. -/
def processMonitor (m : UMonitor) : MonEvent :=
  match m.checkRes with
  | .error e => .failed e
  | .ok none => .noData
  | .ok (some data) =>
    match m.fmtRes data with
    | .error e => .failed e
    | .ok msg => .alerted msg m.sendOk

/-- The `for monitor in self.monitors` loop of one cycle (lines 419-432). -/
def runCycle : List UMonitor → List MonEvent
  | [] => []
  | m :: rest => processMonitor m :: runCycle rest

/-- C6: one cycle of the run loop processes every monitor independently in
configuration order — the cycle outcome is the per-monitor outcome map, and
a monitor whose check raises contributes a logged failure event while every
monitor after it is still processed exactly as it would have been,
so one failure never prevents a later monitor from alerting. -/
theorem C6_monitor_error_isolation :
    (∀ ms : List UMonitor, runCycle ms = ms.map processMonitor) ∧
    (∀ (pre post : List UMonitor) (m : UMonitor) (e : Str),
      m.checkRes = Except.error e →
      runCycle (pre ++ m :: post) =
        runCycle pre ++ MonEvent.failed e :: runCycle post) := by
  have hmap : ∀ ms : List UMonitor, runCycle ms = ms.map processMonitor := by
    intro ms
    induction ms with
    | nil => rfl
    | cons m rest ih => simp [runCycle, ih]
  refine ⟨hmap, ?_⟩
  intro pre post m e he
  rw [hmap, hmap, hmap, List.map_append, List.map_cons]
  simp [processMonitor, he]

/-- A monitor whose check raises a transport error. -/
def wMonFail : UMonitor :=
  ⟨Except.error (S "ClientConnectorError"), fun _ => Except.ok (S "x"), true⟩

/-- A healthy monitor. -/
def wMonOk : UMonitor :=
  ⟨Except.ok (some (S "d")), fun d => Except.ok (S "alert " ++ d), true⟩

theorem C6_monitor_error_isolation_witness :
    wMonFail.checkRes = Except.error (S "ClientConnectorError") ∧
    runCycle ([wMonOk] ++ wMonFail :: [wMonOk]) =
      runCycle [wMonOk] ++ MonEvent.failed (S "ClientConnectorError") :: runCycle [wMonOk] :=
  ⟨rfl, C6_monitor_error_isolation.2 [wMonOk] [wMonOk] wMonFail
    (S "ClientConnectorError") rfl⟩
